import Mathlib

/-!
Verification of the session/task persistence layer, command executor and
message orchestrator of the `personal-llm-computing` bot
(`src/apps/bot/{persistence,executor,ai,handlers}.py`).

Modelling conventions:
* Machine state (the SQLite database) is an explicit `Store` value; every
  database function becomes a pure function threading the store.
* `datetime.utcnow().isoformat()` timestamps are modelled by a strictly
  increasing logical clock (`Nat`); ISO-8601 strings compare
  lexicographically in timestamp order, so the order structure is preserved.
* Python strings are sequences of code points; where character-level
  reasoning matters they are modelled as `List Char`.
* Fallible Python code (raised exceptions) is modelled with `Except`/`Option`;
  a database call that raises leaves the store unchanged (the connection is
  closed without commit).
-/

namespace Bot

/-! ## Command executor (`src/apps/bot/executor.py`) -/

/-- How one spawned shell command ends, seen from `run_command`'s `try` block:
the subprocess completed with captured stdout/stderr and a return code, or
`asyncio.wait_for` raised `TimeoutError`, or the spawn/IO machinery raised some
other exception carrying a description. -/
inductive CommandOutcome where
  | completed (stdout stderr : String) (returncode : Int)
  | timedOut
  | spawnError (desc : String)
deriving DecidableEq, Repr

/-- Side effects `run_command` performs besides computing its return value. -/
inductive ExecEffect where
  | killProc
deriving DecidableEq, Repr

/-- `run_command(command, timeout)` from `executor.py`.  The first component
collects the side effects of the taken branch; the second is the returned
`(output, success)` pair.  `stdout.decode() or stderr.decode() or "(no output)"`
picks the first non-empty string.  The function is total: every exception the
source can raise is caught inside it and mapped to a return value, which is the
embedding of "never raises past this boundary". -/
def run_command (command : String) (timeout : Nat) (outcome : CommandOutcome) :
    List ExecEffect × String × Bool :=
  match command, timeout, outcome with
  | _, _, .completed stdout stderr rc =>
      let output := if stdout ≠ "" then stdout
        else if stderr ≠ "" then stderr else "(no output)"
      ([], output, decide (rc = 0))
  | _, _, .timedOut => ([.killProc], "Command timed out", false)
  | _, _, .spawnError e => ([], "Error: " ++ e, false)

/-- `run_one` inside `execute_parallel`: runs one command with the default
timeout of 60 seconds and pairs the command with its `(output, success)`. -/
def runOne (job : String × CommandOutcome) : String × String × Bool :=
  (job.1, (run_command job.1 60 job.2).2)

/-- `asyncio.gather` collects each coroutine's result into the slot of its
input position, in whatever order the coroutines happen to finish.  Modelled
by folding over the completion order `sched` (a permutation of the positions),
writing each finished result into its own input slot of a `none`-initialised
result list. -/
def gatherFill (xs : List α) (sched : List Nat) : List (Option α) :=
  sched.foldl (fun acc i => acc.set i xs[i]?) (List.replicate xs.length none)

/-- `execute_parallel(commands)` from `executor.py`, with the completion order
of the spawned coroutines made explicit as `sched`. -/
def execute_parallel (sched : List Nat) (jobs : List (String × CommandOutcome)) :
    List (Option (String × String × Bool)) :=
  gatherFill (jobs.map runOne) sched

/-! ## Session title generation (`src/apps/bot/ai.py`, `generate_session_title`) -/

/-- `generate_session_title`'s dependence on the model call, after the
streaming loop: `result` is `none` when no message carried a
`structured_output`, otherwise the returned object whose `"title"` key may be
absent (`result.get("title", "New Session")`).  Titles longer than 50
code points are truncated to 47 plus `"..."`. -/
def generate_session_title (result : Option (Option (List Char))) : List Char :=
  let title := match result with
    | none => "New Session".toList
    | some r => r.getD "New Session".toList
  if 50 < title.length then title.take 47 ++ "...".toList else title

/-! ## JSON documents (`json.dumps` / `json.loads` on session `state`)

The session `state` column is TEXT-as-JSON: `update_session_state` stores
`json.dumps(state)` and `get_session` recovers it with `json.loads`.  The
document grammar is embedded with integer numerals (IEEE-float documents are
outside the embedding) and strings as code-point lists.  The serializer
follows `json.dumps`' default layout (separators `", "` and `": "`, `"` and
`\` escaped); the parser follows `json.loads` (whitespace-tolerant,
must consume the whole input). -/

inductive Json where
  | null
  | bool (b : Bool)
  | num (n : Int)
  | str (s : List Char)
  | arr (elems : List Json)
  | obj (fields : List (List Char × Json))

/-- Decimal digit characters `'0'..'9'`; the only use sites pass `d < 10`. -/
def digitChar (d : Nat) : Char :=
  match d with
  | 0 => '0' | 1 => '1' | 2 => '2' | 3 => '3' | 4 => '4'
  | 5 => '5' | 6 => '6' | 7 => '7' | 8 => '8' | _ => '9'

/-- Decimal digits of a natural number, most significant first. -/
def serNat (n : Nat) : List Char :=
  if _h : n < 10 then [digitChar n]
  else serNat (n / 10) ++ [digitChar (n % 10)]
decreasing_by exact Nat.div_lt_self (by omega) (by omega)

/-- JSON integer numeral. -/
def serInt (n : Int) : List Char :=
  if n < 0 then '-' :: serNat (-n).toNat else serNat n.toNat

/-- String-literal escaping of `json.dumps`: `"` and `\` get a backslash,
other code points are kept verbatim. -/
def escapeChar (c : Char) : List Char :=
  if c = '"' then ['\\', '"']
  else if c = '\\' then ['\\', '\\']
  else [c]

def serStr : List Char → List Char
  | [] => []
  | c :: cs => escapeChar c ++ serStr cs

mutual

/-- `json.dumps` with its default separators. -/
def serialize : Json → List Char
  | .null => 'n' :: ['u', 'l', 'l']
  | .bool true => 't' :: ['r', 'u', 'e']
  | .bool false => 'f' :: ['a', 'l', 's', 'e']
  | .num n => serInt n
  | .str s => '"' :: serStr s ++ ['"']
  | .arr [] => ['[', ']']
  | .arr (e :: es) => '[' :: (serElems (e :: es) ++ [']'])
  | .obj [] => ['\x7b', '\x7d']
  | .obj (f :: fs) => '\x7b' :: (serFields (f :: fs) ++ ['\x7d'])

/-- Array elements joined by `", "`. -/
def serElems : List Json → List Char
  | [] => []
  | [e] => serialize e
  | e :: es => serialize e ++ ',' :: ' ' :: serElems es

/-- Object members `"key": value` joined by `", "`. -/
def serFields : List (List Char × Json) → List Char
  | [] => []
  | [f] => '"' :: serStr f.1 ++ '"' :: ':' :: ' ' :: serialize f.2
  | f :: fs =>
      ('"' :: serStr f.1 ++ '"' :: ':' :: ' ' :: serialize f.2)
        ++ ',' :: ' ' :: serFields fs

end

mutual

/-- Node-and-edge count of a document, the fuel bound for the parser. -/
def jsize : Json → Nat
  | .null => 1
  | .bool _ => 1
  | .num _ => 1
  | .str _ => 1
  | .arr es => 1 + jsizeList es
  | .obj fs => 1 + jsizeFields fs

def jsizeList : List Json → Nat
  | [] => 0
  | e :: es => 1 + jsize e + jsizeList es

def jsizeFields : List (List Char × Json) → Nat
  | [] => 0
  | f :: fs => 1 + jsize f.2 + jsizeFields fs

end

def isDigitChar (c : Char) : Bool := 48 ≤ c.toNat && c.toNat ≤ 57

def digitVal (c : Char) : Nat := c.toNat - 48

/-- Greedily consume decimal digits, extending the accumulator. -/
def parseDigits : List Char → Nat → Nat × List Char
  | c :: cs, acc =>
      if isDigitChar c then parseDigits cs (acc * 10 + digitVal c) else (acc, c :: cs)
  | [], acc => (acc, [])

/-- A negated decimal numeral, after its minus sign. -/
def parseNeg : List Char → Option (Int × List Char)
  | [] => none
  | c2 :: cs2 =>
    if isDigitChar c2 then
      let r := parseDigits (c2 :: cs2) 0
      some (-(r.1 : Int), r.2)
    else none

/-- An optionally negated decimal numeral. -/
def parseIntTok (input : List Char) : Option (Int × List Char) :=
  match input with
  | [] => none
  | c :: cs =>
    if c = '-' then parseNeg cs
    else if isDigitChar c then
      let r := parseDigits (c :: cs) 0
      some ((r.1 : Int), r.2)
    else none

/-- Escape sequences accepted after a backslash in a string literal. -/
def unescapeChar (c : Char) : Option Char :=
  if c = '"' then some '"'
  else if c = '\\' then some '\\'
  else if c = '/' then some '/'
  else if c = 'n' then some '\n'
  else if c = 't' then some '\t'
  else if c = 'r' then some '\r'
  else none

/-- Decode one escape sequence given the parse of the remaining body. -/
def parseEsc (e : Char) (r : Option (List Char × List Char)) :
    Option (List Char × List Char) :=
  match unescapeChar e, r with
  | some d, some p => some (d :: p.1, p.2)
  | _, _ => none

/-- Body of a string literal after the opening quote, up to the closing
quote; returns the decoded code points and the remaining input. -/
def parseStrBody : List Char → Option (List Char × List Char)
  | [] => none
  | c :: cs =>
    if c = '"' then some ([], cs)
    else if c = '\\' then
      match cs with
      | [] => none
      | e :: cs2 => parseEsc e (parseStrBody cs2)
    else
      match parseStrBody cs with
      | some r => some (c :: r.1, r.2)
      | none => none

/-- The JSON whitespace characters skipped between tokens. -/
def skipWs : List Char → List Char
  | [] => []
  | c :: cs =>
      if c = ' ' ∨ c = '\t' ∨ c = '\n' ∨ c = '\r' then skipWs cs else c :: cs

/-- The `null` keyword after its leading `n`. -/
def expectNull : List Char → Option (Json × List Char)
  | 'u' :: 'l' :: 'l' :: rest => some (.null, rest)
  | _ => none

/-- The `true` keyword after its leading `t`. -/
def expectTrue : List Char → Option (Json × List Char)
  | 'r' :: 'u' :: 'e' :: rest => some (.bool true, rest)
  | _ => none

/-- The `false` keyword after its leading `f`. -/
def expectFalse : List Char → Option (Json × List Char)
  | 'a' :: 'l' :: 's' :: 'e' :: rest => some (.bool false, rest)
  | _ => none

/-- A string literal after its opening quote, as a JSON value. -/
def strTok (cs : List Char) : Option (Json × List Char) :=
  match parseStrBody cs with
  | some r => some (.str r.1, r.2)
  | none => none

/-- A numeric literal, as a JSON value. -/
def numTok (l : List Char) : Option (Json × List Char) :=
  match parseIntTok l with
  | some r => some (.num r.1, r.2)
  | none => none

mutual

/-- Recursive-descent JSON value parser, fueled to make termination
structural; `parseVal fuel input` returns the parsed value and the unread
remainder of the input. -/
def parseVal : Nat → List Char → Option (Json × List Char)
  | 0, _ => none
  | fuel + 1, input =>
    match skipWs input with
    | [] => none
    | c :: cs => parseValCore fuel c cs
termination_by fuel _ => (fuel, 0)

/-- Dispatch on the first non-whitespace character of a value. -/
def parseValCore : Nat → Char → List Char → Option (Json × List Char)
  | fuel, c, cs =>
    if c = 'n' then expectNull cs
    else if c = 't' then expectTrue cs
    else if c = 'f' then expectFalse cs
    else if c = '"' then strTok cs
    else if c = '[' then arrDispatch fuel cs
    else if c = '\x7b' then objDispatch fuel cs
    else numTok (c :: cs)
termination_by fuel _ _ => (fuel, 8)

/-- The input after `[`, before whitespace skipping. -/
def arrDispatch : Nat → List Char → Option (Json × List Char)
  | fuel, cs =>
    match skipWs cs with
    | [] => none
    | d :: ds => parseArrTail fuel d ds
termination_by fuel _ => (fuel, 7)

/-- The input after `\x7b`, before whitespace skipping. -/
def objDispatch : Nat → List Char → Option (Json × List Char)
  | fuel, cs =>
    match skipWs cs with
    | [] => none
    | d :: ds => parseObjTail fuel d ds
termination_by fuel _ => (fuel, 7)

/-- The character after `[`: empty array or the first element. -/
def parseArrTail : Nat → Char → List Char → Option (Json × List Char)
  | fuel, d, ds =>
    if d = ']' then some (.arr [], ds) else parseElems fuel (d :: ds) []
termination_by fuel _ _ => (fuel, 6)

/-- The character after `\x7b`: empty object or the first member. -/
def parseObjTail : Nat → Char → List Char → Option (Json × List Char)
  | fuel, d, ds =>
    if d = '\x7d' then some (.obj [], ds) else parseFields fuel (d :: ds) []
termination_by fuel _ _ => (fuel, 6)

/-- Comma-separated array elements up to the closing bracket. -/
def parseElems : Nat → List Char → List Json → Option (Json × List Char)
  | 0, _, _ => none
  | fuel + 1, input, acc =>
    match parseVal fuel input with
    | none => none
    | some r => elemCont fuel acc r
termination_by fuel _ _ => (fuel, 1)

/-- What follows one parsed array element. -/
def elemCont : Nat → List Json → Json × List Char → Option (Json × List Char)
  | fuel, acc, (j, l) =>
    match skipWs l with
    | [] => none
    | d :: ds => elemSep fuel acc j d ds
termination_by fuel _ _ => (fuel, 3)

/-- The character after one array element: separator or closing bracket. -/
def elemSep : Nat → List Json → Json → Char → List Char →
    Option (Json × List Char)
  | fuel, acc, j, d, ds =>
    if d = ',' then parseElems fuel ds (acc ++ [j])
    else if d = ']' then some (.arr (acc ++ [j]), ds)
    else none
termination_by fuel _ _ _ _ => (fuel, 2)

/-- Comma-separated object members up to the closing brace. -/
def parseFields : Nat → List Char → List (List Char × Json) →
    Option (Json × List Char)
  | 0, _, _ => none
  | fuel + 1, input, acc =>
    match skipWs input with
    | [] => none
    | d :: ds => keyStart fuel acc d ds
termination_by fuel _ _ => (fuel, 1)

/-- The character opening a member: the expected key quote. -/
def keyStart : Nat → List (List Char × Json) → Char → List Char →
    Option (Json × List Char)
  | fuel, acc, d, ds =>
    if d = '"' then
      match parseStrBody ds with
      | none => none
      | some kr => keyCont fuel acc kr
    else none
termination_by fuel _ _ _ => (fuel, 6)

/-- What follows one parsed member key. -/
def keyCont : Nat → List (List Char × Json) → List Char × List Char →
    Option (Json × List Char)
  | fuel, acc, (key, l) =>
    match skipWs l with
    | [] => none
    | e :: es => fieldColon fuel acc key e es
termination_by fuel _ _ => (fuel, 5)

/-- The character after a member key: the expected colon. -/
def fieldColon : Nat → List (List Char × Json) → List Char → Char →
    List Char → Option (Json × List Char)
  | fuel, acc, key, e, es =>
    if e = ':' then
      match parseVal fuel es with
      | none => none
      | some r => fieldValCont fuel acc key r
    else none
termination_by fuel _ _ _ _ => (fuel, 4)

/-- What follows one parsed member value. -/
def fieldValCont : Nat → List (List Char × Json) → List Char →
    Json × List Char → Option (Json × List Char)
  | fuel, acc, key, (j, l) =>
    match skipWs l with
    | [] => none
    | d2 :: ds2 => fieldSep fuel acc key j d2 ds2
termination_by fuel _ _ _ => (fuel, 3)

/-- The character after one member: separator or closing brace. -/
def fieldSep : Nat → List (List Char × Json) → List Char → Json → Char →
    List Char → Option (Json × List Char)
  | fuel, acc, key, j, d2, ds2 =>
    if d2 = ',' then parseFields fuel ds2 (acc ++ [(key, j)])
    else if d2 = '\x7d' then some (.obj (acc ++ [(key, j)]), ds2)
    else none
termination_by fuel _ _ _ _ _ => (fuel, 2)

end

/-- `json.dumps(state)` as used by `update_session_state`. -/
def dumps (j : Json) : String := String.mk (serialize j)

/-- `json.loads(text)`: parse one value, requiring the whole input to be
consumed; `none` models the `ValueError` escape. -/
def loads (text : String) : Option Json :=
  match parseVal (text.length + 1) text.toList with
  | some (j, rest) => if skipWs rest = [] then some j else none
  | none => none

/-- First input character is not a decimal digit (or input is empty); the
condition under which `parseDigits` stops exactly at a numeral's end. -/
def noDigit : List Char → Bool
  | [] => true
  | c :: _ => !isDigitChar c

/-- Characters a serialized JSON value can start with. -/
def valueHead (c : Char) : Bool :=
  c == 'n' || c == 't' || c == 'f' || c == '"' || c == '[' || c == '\x7b' ||
    c == '-' || isDigitChar c

/-! ## Store (`src/apps/bot/persistence.py`)

One row per table of the schema in `init_db`.  `get_db` opens a fresh
`sqlite3` connection per operation and never issues `PRAGMA foreign_keys = ON`;
SQLite leaves foreign-key enforcement off by default, so the
`ON DELETE CASCADE` / `ON DELETE SET NULL` clauses declared in the schema are
not enforced at runtime — deletes remove only the rows they name. -/

structure SessionRow where
  id : Nat
  user_id : Int
  chat_id : Int
  name : String
  project_id : Option Nat
  /-- TEXT-as-JSON state column; `create_session` initialises it to `"{}"`. -/
  state : String
  /-- Modelled from the spec: the tool-augmented variant's model-managed
  continuation token.  `handlers.py` imports `update_claude_session_id` and
  reads `session.claude_session_id`, but `persistence.py` under `src/` defines
  neither the function nor the column; the spec describes the variant as
  keeping "a model-managed continuation token instead of explicit history". -/
  claude_session_id : Option String
  created_at : Nat
  updated_at : Nat
deriving DecidableEq, Repr

structure MessageRow where
  id : Nat
  session_id : Nat
  user_id : Int
  chat_id : Int
  role : String
  content : String
  timestamp : Nat
deriving DecidableEq, Repr

structure ActiveRow where
  user_id : Int
  chat_id : Int
  session_id : Nat
deriving DecidableEq, Repr

/-- The database file: the three tables the claims touch (projects are not
needed by any claim), the AUTOINCREMENT counters, and the logical clock
standing for `datetime.utcnow()`. -/
structure Store where
  sessions : List SessionRow
  messages : List MessageRow
  active_sessions : List ActiveRow
  nextSessionId : Nat
  nextMessageId : Nat
  clock : Nat
deriving Repr

/-- Both `persistence.py` error paths are Python `ValueError`s; they are told
apart here the way the spec's taxonomy does, by what they report. -/
inductive StoreError where
  | notFound (msg : String)
  | invalidArgument (msg : String)
deriving DecidableEq, Repr

/-- `create_session(user_id, chat_id, name, project_id)`: inserts a row with
a fresh id, empty state document and both timestamps at now; the default name
is derived from the current timestamp. -/
def create_session (st : Store) (user_id chat_id : Int)
    (name : Option String) (project_id : Option Nat) : SessionRow × Store :=
  let ts := st.clock
  let row : SessionRow :=
    { id := st.nextSessionId
      user_id := user_id
      chat_id := chat_id
      name := name.getD ("Session " ++ toString ts)
      project_id := project_id
      state := "\x7b\x7d"
      claude_session_id := none
      created_at := ts
      updated_at := ts }
  (row, { st with
            sessions := st.sessions ++ [row]
            nextSessionId := st.nextSessionId + 1
            clock := st.clock + 1 })

/-- The `active_sessions` PRIMARY KEY (user_id, chat_id) match. -/
def activeKeyMatch (user_id chat_id : Int) (r : ActiveRow) : Bool :=
  r.user_id == user_id && r.chat_id == chat_id

/-- `SELECT ... FROM sessions s JOIN active_sessions a ON s.id = a.session_id
WHERE a.user_id = ? AND a.chat_id = ?` with `fetchone`. -/
def get_active_session (st : Store) (user_id chat_id : Int) : Option SessionRow :=
  match st.active_sessions.find? (activeKeyMatch user_id chat_id) with
  | none => none
  | some r => st.sessions.find? fun s => s.id == r.session_id

/-- `INSERT INTO active_sessions ... ON CONFLICT(user_id, chat_id) DO UPDATE
SET session_id = ?`. -/
def upsertActive (rows : List ActiveRow) (user_id chat_id : Int)
    (session_id : Nat) : List ActiveRow :=
  if rows.any (activeKeyMatch user_id chat_id) then
    rows.map fun r =>
      if activeKeyMatch user_id chat_id r then { r with session_id := session_id }
      else r
  else rows ++ [⟨user_id, chat_id, session_id⟩]

/-- The session id the active-session table points to for (user, chat). -/
def activePtr (st : Store) (user_id chat_id : Int) : Option Nat :=
  (st.active_sessions.find? (activeKeyMatch user_id chat_id)).map
    fun r => r.session_id

/-- `set_active_session`: raises `ValueError` (spec: NotFound) unless a
session with this id belongs to (user, chat); otherwise upserts the pointer.
An error leaves the store untouched (nothing was written before the raise). -/
def set_active_session (st : Store) (user_id chat_id : Int) (session_id : Nat) :
    Except StoreError Unit × Store :=
  if st.sessions.any fun s =>
      s.id == session_id && s.user_id == user_id && s.chat_id == chat_id then
    (.ok (),
     { st with active_sessions :=
         upsertActive st.active_sessions user_id chat_id session_id })
  else
    (.error (.notFound ("Session " ++ toString session_id ++ " not found for user "
        ++ toString user_id ++ " in chat " ++ toString chat_id)), st)

/-- `get_or_create_active_session`: the pointed-to session, or a freshly
created one installed as active. -/
def get_or_create_active_session (st : Store) (user_id chat_id : Int) :
    SessionRow × Store :=
  match get_active_session st user_id chat_id with
  | some s => (s, st)
  | none =>
    let c := create_session st user_id chat_id none none
    (c.1, (set_active_session c.2 user_id chat_id c.1.id).2)

/-- View of a sessions row as the `Session` dataclass: the state TEXT is
decoded by `json.loads(row["state"]) if row["state"] else {}`; `none` models
the `ValueError` a malformed column would raise. -/
def decodeState (text : String) : Option Json :=
  if text = "" then some (Json.obj []) else loads text

/-- `get_session(session_id)`: `fetchone` on `WHERE id = ?`. -/
def get_session (st : Store) (session_id : Nat) : Option SessionRow :=
  st.sessions.find? fun s => s.id == session_id

/-- `update_session_state(session_id, state)`: `UPDATE sessions SET state = ?,
updated_at = ? WHERE id = ?` with `state = json.dumps(state)`. -/
def update_session_state (st : Store) (session_id : Nat) (state : Json) : Store :=
  { st with
      sessions := st.sessions.map fun s =>
        if s.id = session_id then
          { s with state := dumps state, updated_at := st.clock }
        else s
      clock := st.clock + 1 }

/-- `rename_session(session_id, new_name)`. -/
def rename_session (st : Store) (session_id : Nat) (new_name : String) : Store :=
  { st with
      sessions := st.sessions.map fun s =>
        if s.id = session_id then
          { s with name := new_name, updated_at := st.clock }
        else s
      clock := st.clock + 1 }

/-- Modelled from the spec only in name: `update_claude_session_id` is
imported by `handlers.py` but absent from `persistence.py`; per the spec's
tool-augmented variant it persists the model-managed continuation token. -/
def update_claude_session_id (st : Store) (session_id : Nat) (tok : String) :
    Store :=
  { st with
      sessions := st.sessions.map fun s =>
        if s.id = session_id then
          { s with claude_session_id := some tok, updated_at := st.clock }
        else s
      clock := st.clock + 1 }

/-- `delete_session(session_id)`: `DELETE FROM sessions WHERE id = ?`.  With
foreign keys unenforced (no `PRAGMA foreign_keys = ON` on the connection) the
declared cascades do not run: messages and active-session rows survive. -/
def delete_session (st : Store) (session_id : Nat) : Store :=
  { st with sessions := st.sessions.filter fun s => !(s.id == session_id) }

/-- `save_message`: rejects roles outside `{user, assistant}` with
`ValueError` (spec: InvalidArgument), otherwise inserts the message with a
fresh id and the current timestamp and bumps the parent session's
`updated_at` in the same scope. -/
def save_message (st : Store) (session_id : Nat) (user_id chat_id : Int)
    (role content : String) : Except StoreError Nat × Store :=
  if !(role == "user" || role == "assistant") then
    (.error (.invalidArgument ("Invalid role: " ++ role)), st)
  else
    let ts := st.clock
    let mid := st.nextMessageId
    let row : MessageRow :=
      { id := mid, session_id := session_id, user_id := user_id
        chat_id := chat_id, role := role, content := content, timestamp := ts }
    (.ok mid,
     { st with
         messages := st.messages ++ [row]
         sessions := st.sessions.map fun s =>
           if s.id = session_id then { s with updated_at := ts } else s
         nextMessageId := mid + 1
         clock := st.clock + 1 })

/-- Insert into a list sorted by a Boolean comparator (`le a b`: `a` may sit
no later than `b`); building block of the `ORDER BY` result sets. -/
def insertLe (le : α → α → Bool) (a : α) : List α → List α
  | [] => [a]
  | x :: xs => if le a x then a :: x :: xs else x :: insertLe le a xs

/-- Insertion sort by a Boolean comparator, the `ORDER BY` denotation. -/
def sortLe (le : α → α → Bool) : List α → List α
  | [] => []
  | x :: xs => insertLe le x (sortLe le xs)

/-- `ORDER BY timestamp DESC`: `a` may precede `b` iff its timestamp is no
smaller. -/
def msgDescLe (a b : MessageRow) : Bool := decide (b.timestamp ≤ a.timestamp)

/-- `get_session_messages(session_id, limit)`: `WHERE session_id = ? ORDER BY
timestamp DESC LIMIT ?`, then reversed in Python to chronological order. -/
def get_session_messages (st : Store) (session_id : Nat) (limit : Nat := 20) :
    List MessageRow :=
  ((sortLe msgDescLe
      (st.messages.filter fun m => m.session_id == session_id)).take
    limit).reverse

/-- `COUNT(m.id)` per session of the `LEFT JOIN messages` in `list_sessions`. -/
def msgCount (st : Store) (session_id : Nat) : Nat :=
  (st.messages.filter fun m => m.session_id == session_id).length

/-- `MAX(CASE WHEN m.role = 'user' THEN m.timestamp END)`: latest user-message
timestamp of a session, NULL when it has none. -/
def lastUserMsgTime (st : Store) (session_id : Nat) : Option Nat :=
  (st.messages.filter fun m =>
      m.session_id == session_id && m.role == "user").foldl
    (fun acc m =>
      match acc with
      | none => some m.timestamp
      | some t => some (max t m.timestamp))
    none

/-- `ORDER BY last_user_message_time DESC NULLS LAST, s.created_at DESC`:
`a` sorts no later than `b`. -/
def sessionSortLe (a b : Option Nat × Nat) : Bool :=
  match a.1, b.1 with
  | some x, some y => if x = y then decide (b.2 ≤ a.2) else decide (y < x)
  | some _, none => true
  | none, some _ => false
  | none, none => decide (b.2 ≤ a.2)

/-- Sort key of one annotated `list_sessions` row. -/
def sessionKey (a : SessionRow × Nat × Option Nat) : Option Nat × Nat :=
  (a.2.2, a.1.created_at)

/-- `list_sessions(user_id, chat_id, limit, offset)`: each session of the
(user, chat) pair with its message count, ordered by latest user-message
timestamp descending with NULLs last, ties by `created_at` descending;
`LIMIT`/`OFFSET` only when a limit is passed. -/
def list_sessions (st : Store) (user_id chat_id : Int)
    (limit : Option Nat := none) (offset : Nat := 0) :
    List (SessionRow × Nat) :=
  let rows := st.sessions.filter fun s =>
    s.user_id == user_id && s.chat_id == chat_id
  let annotated := rows.map fun s => (s, msgCount st s.id, lastUserMsgTime st s.id)
  let sorted := sortLe (fun a b => sessionSortLe (sessionKey a) (sessionKey b))
    annotated
  let page := match limit with
    | none => sorted
    | some n => (sorted.drop offset).take n
  page.map fun a => (a.1, a.2.1)

/-- State TEXT currently stored for a session id. -/
def stateOf (st : Store) (session_id : Nat) : Option String :=
  (st.sessions.find? fun s => s.id == session_id).map fun s => s.state

/-- One `save_message` request. -/
structure SaveReq where
  session_id : Nat
  user_id : Int
  chat_id : Int
  role : String
  content : String

/-- Run a sequence of `save_message` calls; a raising call (invalid role)
leaves the store unchanged, as in the source. -/
def applySaves (st : Store) (reqs : List SaveReq) : Store :=
  reqs.foldl
    (fun s r => (save_message s r.session_id r.user_id r.chat_id r.role r.content).2)
    st

/-- The messages of one session in table (= insertion) order. -/
def sessionMessages (st : Store) (session_id : Nat) : List MessageRow :=
  st.messages.filter fun m => m.session_id == session_id

/-! ## Message orchestrator (`src/apps/bot/handlers.py`, `handle_message`)

The turn is modelled for an authorized sender with non-empty plain text and
no pending rename/project prompt.  External calls are oracles: `titleModel`
is the structured result (or raised error) of `generate_session_title`, and
`llmResult` the `(reply, updated_state)` pair returned by `ai.py`'s
`llm_reply` — or the error it raised.  `handlers.py` itself calls
`llm_reply(user_input, claude_session_id=session.claude_session_id,
working_dir=...)` and then `update_claude_session_id`, an API that exists
nowhere under `src/` (the import fails and `Session` has no such attribute);
the guarded token write is therefore modelled from the spec with its guard's
value supplied as the oracle `tokenWrite` (`none`: guard false). -/

/-- What the user ends up seeing for the turn. -/
inductive TurnOutcome where
  | reply (text : String)
  | llmError (desc : String)
deriving DecidableEq, Repr

/-- Error description shown by the `except` branch (`f"LLM error: {e}"`). -/
def StoreError.describe : StoreError → String
  | .notFound m => m
  | .invalidArgument m => m

/-- The first-message title step: on the first user message of the session
the handler calls `generate_session_title` and persists the result through
`rename_session` before the main model call; a raised title call aborts the
turn into the same `except` branch. -/
def titleStep (st1 : Store) (session_id : Nat) (is_first : Bool)
    (titleModel : Except String (Option (Option (List Char)))) :
    Except String Store :=
  if is_first then
    match titleModel with
    | .error e => .error e
    | .ok r =>
        .ok (rename_session st1 session_id (String.mk (generate_session_title r)))
  else .ok st1

/-- The post-model persistence of a turn: save the user message, save the
assistant reply, then the guarded continuation-token write. -/
def persistTurn (st2 : Store) (session_id : Nat) (user_id chat_id : Int)
    (user_input reply : String) (is_first : Bool) (tokenWrite : Option String) :
    TurnOutcome × Store :=
  match save_message st2 session_id user_id chat_id "user" user_input with
  | (.error e, st3) => (.llmError ("LLM error: " ++ e.describe), st3)
  | (.ok _, st3) =>
    match save_message st3 session_id user_id chat_id "assistant" reply with
    | (.error e, st4) => (.llmError ("LLM error: " ++ e.describe), st4)
    | (.ok _, st4) =>
      match tokenWrite with
      | some tok =>
          (.reply reply,
           if is_first then update_claude_session_id st4 session_id tok else st4)
      | none => (.reply reply, st4)

/-- One inbound message turn of `handle_message`, from resolving the active
session to the reply, with every store write it performs. -/
def handle_message (st : Store) (user_id chat_id : Int) (user_input : String)
    (titleModel : Except String (Option (Option (List Char))))
    (llmResult : Except String (String × Json))
    (tokenWrite : Option String) : TurnOutcome × Store :=
  let r1 := get_or_create_active_session st user_id chat_id
  let session := r1.1
  let st1 := r1.2
  let past := get_session_messages st1 session.id 20
  let is_first := !(past.any fun m => m.role == "user")
  match titleStep st1 session.id is_first titleModel with
  | .error e => (.llmError ("LLM error: " ++ e), st1)
  | .ok st2 =>
    match llmResult with
    | .error e => (.llmError ("LLM error: " ++ e), st2)
    | .ok res =>
        persistTurn st2 session.id user_id chat_id user_input res.1
          is_first tokenWrite

/-! ## Store invariants and concrete stores -/

/-- Facts every store reachable by the modelled operations satisfies; they
are the hypotheses of the universally quantified theorems and hold for the
concrete stores below by computation. -/
structure Store.WF (st : Store) : Prop where
  msgs_ts_lt_clock : ∀ m ∈ st.messages, m.timestamp < st.clock
  msgs_ts_asc : st.messages.Pairwise fun a b => a.timestamp < b.timestamp
  session_ids_lt : ∀ s ∈ st.sessions, s.id < st.nextSessionId
  session_ids_uniq : st.sessions.Pairwise fun a b => a.id ≠ b.id
  active_keys_uniq : st.active_sessions.Pairwise fun a b =>
    ¬(a.user_id = b.user_id ∧ a.chat_id = b.chat_id)

/-- The freshly initialised database. -/
def initStore : Store :=
  { sessions := [], messages := [], active_sessions := []
    nextSessionId := 1, nextMessageId := 1, clock := 0 }

/-- A store with one session (id 1, owner user 7 / chat 9) holding one
message — the concrete input on which `delete_session` fails to cascade. -/
def c4Store : Store :=
  { sessions := [{ id := 1, user_id := 7, chat_id := 9, name := "s"
                   project_id := none, state := "\x7b\x7d"
                   claude_session_id := none, created_at := 0, updated_at := 1 }]
    messages := [{ id := 1, session_id := 1, user_id := 7, chat_id := 9
                   role := "user", content := "hi", timestamp := 1 }]
    active_sessions := []
    nextSessionId := 2, nextMessageId := 2, clock := 2 }

/-- The spec's `list_sessions` example: sessions A (id 1, last user message
at t = 5), B (id 2, created at t = 2, no user messages), C (id 3, last user
message at t = 8), all owned by (user 1, chat 1). -/
def c8Store : Store :=
  { sessions :=
      [{ id := 1, user_id := 1, chat_id := 1, name := "A", project_id := none
         state := "\x7b\x7d", claude_session_id := none
         created_at := 1, updated_at := 5 },
       { id := 2, user_id := 1, chat_id := 1, name := "B", project_id := none
         state := "\x7b\x7d", claude_session_id := none
         created_at := 2, updated_at := 2 },
       { id := 3, user_id := 1, chat_id := 1, name := "C", project_id := none
         state := "\x7b\x7d", claude_session_id := none
         created_at := 3, updated_at := 8 }]
    messages :=
      [{ id := 1, session_id := 1, user_id := 1, chat_id := 1
         role := "user", content := "a", timestamp := 5 },
       { id := 2, session_id := 3, user_id := 1, chat_id := 1
         role := "user", content := "c", timestamp := 8 }]
    active_sessions := []
    nextSessionId := 4, nextMessageId := 3, clock := 9 }

/-- A store with one session (id 1) owned by (user 1, chat 1) and an active
pointer at it, used to witness the ownership check and the upsert. -/
def c3Store : Store :=
  { sessions := [{ id := 1, user_id := 1, chat_id := 1, name := "s"
                   project_id := none, state := "\x7b\x7d"
                   claude_session_id := none, created_at := 0, updated_at := 0 }]
    messages := []
    active_sessions := [⟨1, 1, 1⟩]
    nextSessionId := 2, nextMessageId := 1, clock := 1 }

/-! ## Helper lemmas -/

theorem foldl_set_length (xs : List α) (sched : List Nat)
    (acc : List (Option α)) :
    (sched.foldl (fun a j => a.set j xs[j]?) acc).length = acc.length := by
  induction sched generalizing acc with
  | nil => rfl
  | cons j rest ih => simpa using ih (acc.set j xs[j]?)

theorem foldl_set_getElem (xs : List α) (sched : List Nat)
    (acc : List (Option α)) (i : Nat) (hlen : acc.length = xs.length) :
    (sched.foldl (fun a j => a.set j xs[j]?) acc)[i]? =
      if i ∈ sched ∧ i < xs.length then some xs[i]? else acc[i]? := by
  induction sched generalizing acc with
  | nil => simp
  | cons j rest ih =>
    have step := ih (acc.set j xs[j]?) (by simpa using hlen)
    simp only [List.foldl_cons]
    rw [step]
    by_cases hi : i < xs.length
    · by_cases hmem : i ∈ rest
      · rw [if_pos ⟨hmem, hi⟩, if_pos ⟨List.mem_cons_of_mem j hmem, hi⟩]
      · by_cases hij : i = j
        · subst hij
          have hset : (acc.set i xs[i]?)[i]? = some xs[i]? :=
            List.getElem?_set_self (by omega)
          rw [if_neg (by simp [hmem]), hset,
            if_pos ⟨List.mem_cons_self i rest, hi⟩]
        · have hset : (acc.set j xs[j]?)[i]? = acc[i]? :=
            List.getElem?_set_ne fun h => hij h.symm
          rw [if_neg (by simp [hmem]), hset, if_neg (by simp [hmem, hij])]
    · have hnone1 : acc[i]? = none := List.getElem?_eq_none (by omega)
      have hnone2 : (acc.set j xs[j]?)[i]? = none := by
        apply List.getElem?_eq_none
        simp only [List.length_set]
        omega
      rw [if_neg (by simp [hi]), hnone2, if_neg (by simp [hi]), hnone1]

/-! ## C5 / C6: command executor -/

/-- C5: `run_command` maps a timeout to `("Command timed out", False)` after
killing the subprocess, any other spawn/IO failure to
`("Error: <description>", False)`, and a completed subprocess to its captured
output paired with success iff the exit code is zero; being a total function,
it raises nothing past this boundary. -/
theorem run_command_boundary (command : String) (timeout : Nat)
    (d stdout stderr : String) (rc : Int) :
    run_command command timeout .timedOut
        = ([.killProc], "Command timed out", false)
  ∧ run_command command timeout (.spawnError d) = ([], "Error: " ++ d, false)
  ∧ (run_command command timeout (.completed stdout stderr rc)).2.2
        = decide (rc = 0)
  ∧ (run_command command timeout (.completed stdout stderr rc)).2.1
        = (if stdout ≠ "" then stdout
           else if stderr ≠ "" then stderr else "(no output)") :=
  ⟨rfl, rfl, rfl, rfl⟩

/-- C6: `execute_parallel` yields one `(command, output, success)` triple per
input command, placed at the input position whatever the completion order
`sched` (any order covering every index), and slot `i` depends only on job
`i` — one command's failure cannot affect another's result. -/
theorem execute_parallel_ordered_isolated
    (jobs : List (String × CommandOutcome)) (sched : List Nat)
    (hsched : ∀ i, i < jobs.length → i ∈ sched) :
    (execute_parallel sched jobs).length = jobs.length
  ∧ (∀ i (h : i < jobs.length),
      (execute_parallel sched jobs)[i]? =
        some (some ((jobs.get ⟨i, h⟩).1,
          (run_command (jobs.get ⟨i, h⟩).1 60 (jobs.get ⟨i, h⟩).2).2)))
  ∧ (∀ (jobs2 : List (String × CommandOutcome)) (i : Nat)
      (h : i < jobs.length) (h2 : i < jobs2.length),
      jobs2.length = jobs.length →
      jobs.get ⟨i, h⟩ = jobs2.get ⟨i, h2⟩ →
      (execute_parallel sched jobs)[i]? = (execute_parallel sched jobs2)[i]?) := by
  have main : ∀ (js : List (String × CommandOutcome)) (i : Nat)
      (h : i < js.length), (∀ k, k < js.length → k ∈ sched) →
      (execute_parallel sched js)[i]? = some (some (runOne (js.get ⟨i, h⟩))) := by
    intro js i h hcov
    unfold execute_parallel gatherFill
    rw [foldl_set_getElem (js.map runOne) sched _ i (by simp)]
    have hi : i < (js.map runOne).length := by simpa using h
    simp only [hcov i h, hi, and_true, if_pos, true_and]
    rw [List.getElem?_map]
    simp [List.getElem?_eq_getElem h]
  refine ⟨?_, ?_, ?_⟩
  · unfold execute_parallel gatherFill
    rw [foldl_set_length]
    simp
  · intro i h
    simpa [runOne] using main jobs i h hsched
  · intro jobs2 i h h2 hlen heq
    rw [main jobs i h hsched, main jobs2 i h2 (by rw [hlen]; exact hsched)]
    rw [heq]

/-- C6 witness: the spec's three-command example, completing out of order
(`sched = [2, 0, 1]`): three slots in input order, the middle one failed,
the others unaffected. -/
theorem execute_parallel_ordered_isolated_spot :
    (execute_parallel [2, 0, 1]
        [("echo a", .completed "a\n" "" 0), ("false", .completed "" "" 1),
         ("echo c", .completed "c\n" "" 0)]).length = 3
  ∧ (execute_parallel [2, 0, 1]
        [("echo a", .completed "a\n" "" 0), ("false", .completed "" "" 1),
         ("echo c", .completed "c\n" "" 0)])[1]? =
      some (some ("false", "(no output)", false)) := by
  have h := execute_parallel_ordered_isolated
    [("echo a", .completed "a\n" "" 0), ("false", .completed "" "" 1),
     ("echo c", .completed "c\n" "" 0)] [2, 0, 1] (by decide)
  refine ⟨h.1, ?_⟩
  rw [h.2.1 1 (by decide)]
  rfl

/-! ## C10: session title generation -/

/-- C10: `generate_session_title` always returns at most 50 code points;
titles longer than 50 become their first 47 plus `"..."`, and a missing
structured result falls back to `"New Session"`. -/
theorem generate_session_title_bounded (result : Option (Option (List Char))) :
    (generate_session_title result).length ≤ 50
  ∧ (result = none → generate_session_title result = "New Session".toList)
  ∧ (∀ t, result = some (some t) → 50 < t.length →
      generate_session_title result = t.take 47 ++ "...".toList) := by
  have gen : ∀ title : List Char,
      (if 50 < title.length then title.take 47 ++ "...".toList
       else title).length ≤ 50 := by
    intro title
    split
    · next h =>
      have h3 : ("...".toList).length = 3 := rfl
      simp only [List.length_append, List.length_take]
      omega
    · next h => omega
  refine ⟨?_, ?_, ?_⟩
  · rcases result with _ | r
    · simp only [generate_session_title]
      exact gen "New Session".toList
    · simpa [generate_session_title] using gen (r.getD "New Session".toList)
  · intro h
    subst h
    decide
  · intro t h hlen
    subst h
    simp only [generate_session_title, Option.getD_some]
    rw [if_pos hlen]

/-- C10 witness: a 60-character title is truncated to 47 plus `"..."` (50
total); no structured result gives `"New Session"`. -/
theorem generate_session_title_bounded_spot :
    (generate_session_title (some (some (List.replicate 60 'x')))).length ≤ 50
  ∧ generate_session_title none = "New Session".toList
  ∧ generate_session_title (some (some (List.replicate 60 'x')))
      = (List.replicate 60 'x').take 47 ++ "...".toList :=
  ⟨(generate_session_title_bounded (some (some (List.replicate 60 'x')))).1,
   (generate_session_title_bounded none).2.1 rfl,
   (generate_session_title_bounded (some (some (List.replicate 60 'x')))).2.2
     (List.replicate 60 'x') rfl (by simp)⟩

/-! ## C4: `delete_session` does not cascade -/

/-- C4 (refuting the claimed cascade): deleting session 1 from `c4Store`
removes the sessions row, yet its message — whose `session_id` still
references the deleted session — survives, because no connection ever enables
SQLite foreign-key enforcement. -/
theorem delete_session_no_cascade :
    (delete_session c4Store 1).sessions = []
  ∧ (delete_session c4Store 1).messages = c4Store.messages
  ∧ ∃ m ∈ (delete_session c4Store 1).messages, m.session_id = 1 := by
  refine ⟨by decide, rfl, ?_⟩
  refine ⟨{ id := 1, session_id := 1, user_id := 7, chat_id := 9,
            role := "user", content := "hi", timestamp := 1 }, ?_, rfl⟩
  decide

/-! ## Sorting lemmas for the `ORDER BY` denotation -/

theorem insertLe_perm (le : α → α → Bool) (a : α) (l : List α) :
    List.Perm (insertLe le a l) (a :: l) := by
  induction l with
  | nil => exact List.Perm.refl _
  | cons x xs ih =>
    unfold insertLe
    split
    · exact List.Perm.refl _
    · exact (List.Perm.cons x ih).trans (List.Perm.swap a x xs)

theorem sortLe_perm (le : α → α → Bool) (l : List α) : List.Perm (sortLe le l) l := by
  induction l with
  | nil => exact List.Perm.refl _
  | cons x xs ih =>
    exact (insertLe_perm le x (sortLe le xs)).trans (List.Perm.cons x ih)

theorem insertLe_pairwise (le : α → α → Bool)
    (htot : ∀ a b, le a b = true ∨ le b a = true)
    (htrans : ∀ a b c, le a b = true → le b c = true → le a c = true)
    (a : α) (l : List α) (h : l.Pairwise fun x y => le x y = true) :
    (insertLe le a l).Pairwise fun x y => le x y = true := by
  induction l with
  | nil => simp [insertLe]
  | cons x xs ih =>
    rcases List.pairwise_cons.mp h with ⟨hx, hxs⟩
    unfold insertLe
    split
    · next hax =>
      refine List.pairwise_cons.mpr ⟨?_, h⟩
      intro y hy
      rcases List.mem_cons.mp hy with rfl | hy2
      · exact hax
      · exact htrans a x y hax (hx y hy2)
    · next hax =>
      refine List.pairwise_cons.mpr ⟨?_, ih hxs⟩
      intro y hy
      rcases List.mem_cons.mp ((insertLe_perm le a xs).mem_iff.mp hy) with rfl | hy2
      · rcases htot y x with h1 | h1
        · exact absurd h1 hax
        · exact h1
      · exact hx y hy2

theorem sortLe_pairwise (le : α → α → Bool)
    (htot : ∀ a b, le a b = true ∨ le b a = true)
    (htrans : ∀ a b c, le a b = true → le b c = true → le a c = true)
    (l : List α) : (sortLe le l).Pairwise fun x y => le x y = true := by
  induction l with
  | nil => simp [sortLe]
  | cons x xs ih => exact insertLe_pairwise le htot htrans x (sortLe le xs) ih

theorem insertLe_append_last (le : α → α → Bool) (a : α) (l : List α)
    (h : ∀ y ∈ l, le a y = false) : insertLe le a l = l ++ [a] := by
  induction l with
  | nil => rfl
  | cons x xs ih =>
    have hx := h x (List.mem_cons_self x xs)
    unfold insertLe
    rw [if_neg (by simp [hx]), ih fun y hy => h y (List.mem_cons_of_mem x hy)]
    rfl

/-- Sorting a list that is already strictly ascending for the *descending*
comparator (`le x y = false` for `x` before `y`) just reverses it — the
`ORDER BY timestamp DESC` result over the append-only messages table. -/
theorem sortLe_of_sorted_asc (le : α → α → Bool) (l : List α)
    (h : l.Pairwise fun x y => le x y = false) :
    sortLe le l = l.reverse := by
  induction l with
  | nil => rfl
  | cons x xs ih =>
    rcases List.pairwise_cons.mp h with ⟨hx, hxs⟩
    show insertLe le x (sortLe le xs) = (x :: xs).reverse
    rw [ih hxs,
      insertLe_append_last le x xs.reverse fun y hy =>
        hx y (List.mem_reverse.mp hy),
      List.reverse_cons]

/-! ## C2: `get_session_messages` is a sliding window -/

theorem get_session_messages_eq_window (st : Store) (hwf : st.WF)
    (sid N : Nat) :
    get_session_messages st sid N =
      (sessionMessages st sid).drop ((sessionMessages st sid).length - N) := by
  have hasc : (sessionMessages st sid).Pairwise
      fun a b => msgDescLe a b = false := by
    refine (hwf.msgs_ts_asc.filter (fun m => m.session_id == sid)).imp ?_
    intro a b hlt
    simp only [msgDescLe, decide_eq_false_iff_not]
    omega
  unfold get_session_messages
  rw [show (st.messages.filter fun m => m.session_id == sid)
        = sessionMessages st sid from rfl,
    sortLe_of_sorted_asc msgDescLe _ hasc,
    ← List.rtake_eq_reverse_take_reverse]
  rfl

theorem save_message_session_fields (s : SessionRow) (sid : Nat) (ts : Nat) :
    (if s.id = sid then { s with updated_at := ts } else s).id = s.id
  ∧ (if s.id = sid then { s with updated_at := ts } else s).state = s.state := by
  split <;> exact ⟨rfl, rfl⟩

theorem save_message_wf (st : Store) (hwf : st.WF) (sid : Nat)
    (uid cid : Int) (role content : String) :
    ((save_message st sid uid cid role content).2).WF := by
  unfold save_message
  split
  · exact hwf
  · constructor
    · intro m hm
      rcases List.mem_append.mp hm with hold | hnew
      · have := hwf.msgs_ts_lt_clock m hold
        simp only
        omega
      · simp only [List.mem_singleton.mp hnew]
        omega
    · refine List.pairwise_append.mpr ⟨hwf.msgs_ts_asc, List.pairwise_singleton _ _, ?_⟩
      intro a ha b hb
      rw [List.mem_singleton.mp hb]
      exact hwf.msgs_ts_lt_clock a ha
    · intro s hs
      rcases List.mem_map.mp hs with ⟨t, ht, rfl⟩
      rw [(save_message_session_fields t sid st.clock).1]
      exact hwf.session_ids_lt t ht
    · refine List.pairwise_map.mpr (hwf.session_ids_uniq.imp ?_)
      intro a b hne
      rw [(save_message_session_fields a sid st.clock).1,
        (save_message_session_fields b sid st.clock).1]
      exact hne
    · exact hwf.active_keys_uniq

theorem applySaves_wf (st : Store) (hwf : st.WF) (reqs : List SaveReq) :
    (applySaves st reqs).WF := by
  induction reqs generalizing st with
  | nil => exact hwf
  | cons r rs ih =>
    exact ih _ (save_message_wf st hwf r.session_id r.user_id r.chat_id
      r.role r.content)

/-- C2: after any sequence of `save_message` calls on any well-formed store,
`get_session_messages(sid, N)` is exactly the last `N` messages of session
`sid` in insertion (= chronological) order, and a limit covering all of them
returns the full insertion-ordered transcript. -/
theorem get_session_messages_sliding_window (st0 : Store) (hwf : st0.WF)
    (reqs : List SaveReq) (sid N : Nat) :
    get_session_messages (applySaves st0 reqs) sid N =
      (sessionMessages (applySaves st0 reqs) sid).drop
        ((sessionMessages (applySaves st0 reqs) sid).length - N)
  ∧ ((sessionMessages (applySaves st0 reqs) sid).length ≤ N →
      get_session_messages (applySaves st0 reqs) sid N =
        sessionMessages (applySaves st0 reqs) sid) := by
  have h1 := get_session_messages_eq_window _ (applySaves_wf st0 hwf reqs) sid N
  refine ⟨h1, fun hle => ?_⟩
  rw [h1, Nat.sub_eq_zero_of_le hle, List.drop_zero]

theorem initStore_wf : initStore.WF := by
  constructor <;> simp [initStore]

/-- C2 witness: three saves to session 5 (plus one to another session);
window of 2 returns the last two in order, and a large limit the full
transcript. -/
theorem get_session_messages_sliding_window_spot :
    get_session_messages
        (applySaves initStore
          [⟨5, 1, 1, "user", "m1"⟩, ⟨5, 1, 1, "assistant", "m2"⟩,
           ⟨6, 1, 1, "user", "other"⟩, ⟨5, 1, 1, "user", "m3"⟩]) 5 2 =
      (sessionMessages
          (applySaves initStore
            [⟨5, 1, 1, "user", "m1"⟩, ⟨5, 1, 1, "assistant", "m2"⟩,
             ⟨6, 1, 1, "user", "other"⟩, ⟨5, 1, 1, "user", "m3"⟩]) 5).drop
        ((sessionMessages
            (applySaves initStore
              [⟨5, 1, 1, "user", "m1"⟩, ⟨5, 1, 1, "assistant", "m2"⟩,
               ⟨6, 1, 1, "user", "other"⟩, ⟨5, 1, 1, "user", "m3"⟩]) 5).length - 2)
  ∧ ((sessionMessages
        (applySaves initStore
          [⟨5, 1, 1, "user", "m1"⟩, ⟨5, 1, 1, "assistant", "m2"⟩,
           ⟨6, 1, 1, "user", "other"⟩, ⟨5, 1, 1, "user", "m3"⟩]) 5).length ≤ 20 →
      get_session_messages
          (applySaves initStore
            [⟨5, 1, 1, "user", "m1"⟩, ⟨5, 1, 1, "assistant", "m2"⟩,
             ⟨6, 1, 1, "user", "other"⟩, ⟨5, 1, 1, "user", "m3"⟩]) 5 20 =
        sessionMessages
          (applySaves initStore
            [⟨5, 1, 1, "user", "m1"⟩, ⟨5, 1, 1, "assistant", "m2"⟩,
             ⟨6, 1, 1, "user", "other"⟩, ⟨5, 1, 1, "user", "m3"⟩]) 5) :=
  ⟨(get_session_messages_sliding_window initStore initStore_wf
      [⟨5, 1, 1, "user", "m1"⟩, ⟨5, 1, 1, "assistant", "m2"⟩,
       ⟨6, 1, 1, "user", "other"⟩, ⟨5, 1, 1, "user", "m3"⟩] 5 2).1,
   (get_session_messages_sliding_window initStore initStore_wf
      [⟨5, 1, 1, "user", "m1"⟩, ⟨5, 1, 1, "assistant", "m2"⟩,
       ⟨6, 1, 1, "user", "other"⟩, ⟨5, 1, 1, "user", "m3"⟩] 5 20).2⟩

/-! ## C8: `list_sessions` ordering -/

theorem sessionSortLe_total (a b : Option Nat × Nat) :
    sessionSortLe a b = true ∨ sessionSortLe b a = true := by
  rcases a with ⟨a1, a2⟩
  rcases b with ⟨b1, b2⟩
  rcases a1 with _ | x <;> rcases b1 with _ | y
  · simp only [sessionSortLe, decide_eq_true_eq]
    omega
  · simp [sessionSortLe]
  · simp [sessionSortLe]
  · by_cases hxy : x = y
    · subst hxy
      simp only [sessionSortLe, eq_self_iff_true, if_true, decide_eq_true_eq]
      omega
    · simp only [sessionSortLe, if_neg hxy, if_neg (Ne.symm hxy),
        decide_eq_true_eq]
      omega

theorem sessionSortLe_trans (a b c : Option Nat × Nat)
    (hab : sessionSortLe a b = true) (hbc : sessionSortLe b c = true) :
    sessionSortLe a c = true := by
  rcases a with ⟨a1, a2⟩
  rcases b with ⟨b1, b2⟩
  rcases c with ⟨c1, c2⟩
  rcases a1 with _ | x <;> rcases b1 with _ | y <;> rcases c1 with _ | z <;>
    simp only [sessionSortLe, decide_eq_true_eq] at hab hbc ⊢ <;>
    first
      | trivial
      | omega
      | exact absurd hab Bool.false_ne_true
      | exact absurd hbc Bool.false_ne_true
      | (split_ifs at hab hbc ⊢ <;>
          (try simp only [decide_eq_true_eq] at hab) <;>
          (try simp only [decide_eq_true_eq] at hbc) <;>
          (try simp only [decide_eq_true_eq]) <;> omega)

/-- C8: for every (user, chat), `list_sessions` returns the sessions of that
pair, each with its message count, ordered by latest user-message timestamp
descending with sessions lacking user messages last, ties broken by creation
time descending; on the spec's example store the order is [C, A, B]. -/
theorem list_sessions_ordering (st : Store) (uid cid : Int) :
    (list_sessions st uid cid none 0).Pairwise (fun p q =>
        sessionSortLe (lastUserMsgTime st p.1.id, p.1.created_at)
          (lastUserMsgTime st q.1.id, q.1.created_at) = true)
  ∧ List.Perm ((list_sessions st uid cid none 0).map Prod.fst)
      (st.sessions.filter fun s => s.user_id == uid && s.chat_id == cid)
  ∧ (∀ p ∈ list_sessions st uid cid none 0, p.2 = msgCount st p.1.id)
  ∧ (list_sessions c8Store 1 1 none 0).map (fun p => (p.1.name, p.2))
      = [("C", 1), ("A", 1), ("B", 0)] := by
  have hcmp_tot : ∀ a b : SessionRow × Nat × Option Nat,
      sessionSortLe (sessionKey a) (sessionKey b) = true ∨
        sessionSortLe (sessionKey b) (sessionKey a) = true :=
    fun a b => sessionSortLe_total _ _
  have hcmp_trans : ∀ a b c : SessionRow × Nat × Option Nat,
      sessionSortLe (sessionKey a) (sessionKey b) = true →
        sessionSortLe (sessionKey b) (sessionKey c) = true →
          sessionSortLe (sessionKey a) (sessionKey c) = true :=
    fun a b c => sessionSortLe_trans _ _ _
  refine ⟨?_, ?_, ?_, by decide⟩
  · have hpair := sortLe_pairwise
      (fun a b => sessionSortLe (sessionKey a) (sessionKey b)) hcmp_tot
      hcmp_trans
      ((st.sessions.filter fun s => s.user_id == uid && s.chat_id == cid).map
        fun s => (s, msgCount st s.id, lastUserMsgTime st s.id))
    have hmem : ∀ a ∈ sortLe
        (fun a b => sessionSortLe (sessionKey a) (sessionKey b))
        ((st.sessions.filter fun s => s.user_id == uid && s.chat_id == cid).map
          fun s => (s, msgCount st s.id, lastUserMsgTime st s.id)),
        a.2.2 = lastUserMsgTime st a.1.id := by
      intro a ha
      have := (sortLe_perm _ _).mem_iff.mp ha
      rcases List.mem_map.mp this with ⟨s, _, rfl⟩
      rfl
    unfold list_sessions
    refine List.pairwise_map.mpr (List.Pairwise.imp_of_mem ?_ hpair)
    intro a b hma hmb hab
    simpa [sessionKey, hmem a hma, hmem b hmb] using hab
  · unfold list_sessions
    have h1 : ∀ (l : List (SessionRow × Nat × Option Nat)),
        (l.map fun a => (a.1, a.2.1)).map Prod.fst = l.map fun a => a.1 := by
      intro l
      rw [List.map_map]
      rfl
    rw [h1]
    have h2 := List.Perm.map (fun a : SessionRow × Nat × Option Nat => a.1)
      (sortLe_perm (fun a b => sessionSortLe (sessionKey a) (sessionKey b))
        ((st.sessions.filter fun s => s.user_id == uid && s.chat_id == cid).map
          fun s => (s, msgCount st s.id, lastUserMsgTime st s.id)))
    refine h2.trans ?_
    rw [List.map_map,
      show ((fun a : SessionRow × Nat × Option Nat => a.1) ∘ fun s =>
          (s, msgCount st s.id, lastUserMsgTime st s.id)) = id from rfl,
      List.map_id]
  · intro p hp
    unfold list_sessions at hp
    rcases List.mem_map.mp hp with ⟨a, ha, rfl⟩
    have := (sortLe_perm _ _).mem_iff.mp ha
    rcases List.mem_map.mp this with ⟨s, _, rfl⟩
    rfl

/-! ## C3: `set_active_session` ownership check and upsert -/

theorem find?_map_congr (p : α → Bool) (f : α → α) (l : List α)
    (hp : ∀ a, p (f a) = p a) (hf : ∀ a, p a = true → f a = a) :
    (l.map f).find? p = l.find? p := by
  induction l with
  | nil => rfl
  | cons a l ih =>
    by_cases hpa : p a = true
    · have h1 : p (f a) = true := by rw [hp a]; exact hpa
      rw [List.map_cons, List.find?_cons_of_pos _ h1,
        List.find?_cons_of_pos _ hpa, hf a hpa]
    · have h1 : ¬p (f a) = true := by rw [hp a]; exact hpa
      rw [List.map_cons, List.find?_cons_of_neg _ h1,
        List.find?_cons_of_neg _ hpa, ih]

theorem find?_upsert_map (user_id chat_id : Int) (sid : Nat)
    (rows : List ActiveRow)
    (hany : rows.any (activeKeyMatch user_id chat_id) = true) :
    ((rows.map fun r =>
        if activeKeyMatch user_id chat_id r then { r with session_id := sid }
        else r).find? (activeKeyMatch user_id chat_id)).map
      (fun r => r.session_id) = some sid := by
  induction rows with
  | nil => simp at hany
  | cons r rs ih =>
    by_cases hk : activeKeyMatch user_id chat_id r = true
    · have h1 : activeKeyMatch user_id chat_id
          { r with session_id := sid } = true := hk
      rw [List.map_cons, if_pos hk, List.find?_cons_of_pos _ h1]
      rfl
    · have h1 : ¬activeKeyMatch user_id chat_id r = true := hk
      rw [List.map_cons, if_neg hk, List.find?_cons_of_neg _ h1]
      exact ih (by simpa [List.any_cons, hk] using hany)

theorem find?_upsert_append (user_id chat_id : Int) (sid : Nat)
    (rows : List ActiveRow)
    (hany : rows.any (activeKeyMatch user_id chat_id) = false) :
    ((rows ++ [ActiveRow.mk user_id chat_id sid]).find?
        (activeKeyMatch user_id chat_id)).map (fun r => r.session_id)
      = some sid := by
  rw [List.find?_append]
  have hnone : rows.find? (activeKeyMatch user_id chat_id) = none := by
    rw [List.find?_eq_none]
    intro x hx hpx
    rw [List.any_eq_false] at hany
    exact hany x hx hpx
  rw [hnone]
  have hkey : activeKeyMatch user_id chat_id
      (ActiveRow.mk user_id chat_id sid) = true := by
    simp [activeKeyMatch]
  rw [Option.none_or, List.find?_cons_of_pos _ hkey]
  rfl

theorem upsert_ptr_self (rows : List ActiveRow) (user_id chat_id : Int)
    (sid : Nat) :
    ((upsertActive rows user_id chat_id sid).find?
        (activeKeyMatch user_id chat_id)).map (fun r => r.session_id)
      = some sid := by
  unfold upsertActive
  split
  · next hany => exact find?_upsert_map user_id chat_id sid rows hany
  · next hany =>
    exact find?_upsert_append user_id chat_id sid rows (by simpa using hany)

theorem activeKeyMatch_eq (u c : Int) (r : ActiveRow) :
    activeKeyMatch u c r = true ↔ r.user_id = u ∧ r.chat_id = c := by
  simp [activeKeyMatch]

theorem find?_upsert_other (user_id chat_id u c : Int) (sid : Nat)
    (rows : List ActiveRow) (hne : ¬(u = user_id ∧ c = chat_id)) :
    (upsertActive rows user_id chat_id sid).find? (activeKeyMatch u c)
      = rows.find? (activeKeyMatch u c) := by
  unfold upsertActive
  split
  · apply find?_map_congr
    · intro a
      by_cases hk : activeKeyMatch user_id chat_id a = true
      · rw [if_pos hk]
        rfl
      · rw [if_neg hk]
    · intro a hpa
      have h1 := (activeKeyMatch_eq u c a).mp hpa
      rw [if_neg]
      intro hk
      have h2 := (activeKeyMatch_eq user_id chat_id a).mp hk
      exact hne ⟨by rw [← h1.1, h2.1], by rw [← h1.2, h2.2]⟩
  · rw [List.find?_append]
    have hkey : activeKeyMatch u c (ActiveRow.mk user_id chat_id sid) = false := by
      rw [Bool.eq_false_iff]
      intro hk
      have h2 := (activeKeyMatch_eq u c (ActiveRow.mk user_id chat_id sid)).mp hk
      exact hne ⟨h2.1.symm, h2.2.symm⟩
    rw [List.find?_cons_of_neg _ (by simp [hkey]), List.find?_nil]
    simp

theorem upsert_keys_uniq (rows : List ActiveRow) (user_id chat_id : Int)
    (sid : Nat)
    (h : rows.Pairwise fun a b => ¬(a.user_id = b.user_id ∧ a.chat_id = b.chat_id)) :
    (upsertActive rows user_id chat_id sid).Pairwise
      fun a b => ¬(a.user_id = b.user_id ∧ a.chat_id = b.chat_id) := by
  unfold upsertActive
  split
  · refine List.pairwise_map.mpr (h.imp ?_)
    intro a b hab
    by_cases hka : activeKeyMatch user_id chat_id a = true <;>
      by_cases hkb : activeKeyMatch user_id chat_id b = true <;>
      simp only [if_pos, if_neg, hka, hkb, if_true, if_false] <;>
      exact hab
  · next hany =>
    refine List.pairwise_append.mpr ⟨h, List.pairwise_singleton _ _, ?_⟩
    intro a ha b hb
    rw [List.mem_singleton.mp hb]
    rintro ⟨h1, h2⟩
    have hk : activeKeyMatch user_id chat_id a = true :=
      (activeKeyMatch_eq user_id chat_id a).mpr ⟨h1, h2⟩
    exact hany (List.any_eq_true.mpr ⟨a, ha, hk⟩)

/-- C3: `set_active_session` fails with NotFound and leaves the store (and
thus the prior active pointer) untouched whenever the session id does not
belong to (user, chat); when it does, the call succeeds and upserts the
(user, chat) pointer to it, touching no other pointer and keeping at most
one pointer per (user_id, chat_id). -/
theorem set_active_session_spec (st : Store) (hwf : st.WF) (user_id chat_id : Int)
    (sid : Nat) :
    (¬(∃ s ∈ st.sessions, s.id = sid ∧ s.user_id = user_id ∧ s.chat_id = chat_id) →
      ∃ msg, set_active_session st user_id chat_id sid
        = (.error (.notFound msg), st))
  ∧ ((∃ s ∈ st.sessions, s.id = sid ∧ s.user_id = user_id ∧ s.chat_id = chat_id) →
      (set_active_session st user_id chat_id sid).1 = .ok ()
    ∧ activePtr (set_active_session st user_id chat_id sid).2 user_id chat_id
        = some sid
    ∧ (∀ u c : Int, ¬(u = user_id ∧ c = chat_id) →
        activePtr (set_active_session st user_id chat_id sid).2 u c
          = activePtr st u c)
    ∧ ((set_active_session st user_id chat_id sid).2).active_sessions.Pairwise
        fun a b => ¬(a.user_id = b.user_id ∧ a.chat_id = b.chat_id)) := by
  have hbool : (st.sessions.any fun s =>
      s.id == sid && s.user_id == user_id && s.chat_id == chat_id) = true ↔
      ∃ s ∈ st.sessions, s.id = sid ∧ s.user_id = user_id ∧ s.chat_id = chat_id := by
    simp [List.any_eq_true, and_assoc]
  constructor
  · intro hno
    unfold set_active_session
    rw [if_neg fun hb => hno (hbool.mp hb)]
    exact ⟨_, rfl⟩
  · intro hyes
    have hb := hbool.mpr hyes
    unfold set_active_session
    rw [if_pos hb]
    refine ⟨rfl, ?_, ?_, ?_⟩
    · exact upsert_ptr_self st.active_sessions user_id chat_id sid
    · intro u c hne
      unfold activePtr
      rw [find?_upsert_other user_id chat_id u c sid st.active_sessions hne]
    · exact upsert_keys_uniq st.active_sessions user_id chat_id sid
        hwf.active_keys_uniq

theorem c3Store_wf : c3Store.WF := by
  constructor <;> decide

/-- C3 witness: on `c3Store`, pointing (user 2, chat 2) at session 1 (owned
by (1, 1)) fails with NotFound leaving the store as is, while pointing
(user 1, chat 1) at it succeeds and sets the pointer. -/
theorem set_active_session_spec_spot :
    (∃ msg, set_active_session c3Store 2 2 1
      = (.error (.notFound msg), c3Store))
  ∧ activePtr (set_active_session c3Store 1 1 1).2 1 1 = some 1 :=
  ⟨(set_active_session_spec c3Store c3Store_wf 2 2 1).1 (by decide),
   ((set_active_session_spec c3Store c3Store_wf 1 1 1).2 (by decide)).2.1⟩

/-! ## C1 / C7: the orchestrator's store writes -/

theorem find?_id_map_state (l : List SessionRow) (g : SessionRow → SessionRow)
    (hid : ∀ s, (g s).id = s.id) (hstate : ∀ s, (g s).state = s.state)
    (sid : Nat) :
    ((l.map g).find? fun s => s.id == sid).map (fun s => s.state)
      = (l.find? fun s => s.id == sid).map fun s => s.state := by
  rw [List.find?_map]
  have hpg : ((fun s : SessionRow => s.id == sid) ∘ g)
      = fun s : SessionRow => s.id == sid := by
    funext s
    simp [Function.comp, hid s]
  rw [hpg, Option.map_map]
  cases h : l.find? fun s : SessionRow => s.id == sid with
  | none => rfl
  | some s => simp [Function.comp, hstate s]

theorem stateOf_rename (st : Store) (sid2 : Nat) (nm : String) (sid : Nat) :
    stateOf (rename_session st sid2 nm) sid = stateOf st sid := by
  unfold stateOf rename_session
  exact find?_id_map_state st.sessions _ (fun s => by split <;> rfl)
    (fun s => by split <;> rfl) sid

theorem stateOf_update_tok (st : Store) (sid2 : Nat) (tok : String) (sid : Nat) :
    stateOf (update_claude_session_id st sid2 tok) sid = stateOf st sid := by
  unfold stateOf update_claude_session_id
  exact find?_id_map_state st.sessions _ (fun s => by split <;> rfl)
    (fun s => by split <;> rfl) sid

theorem stateOf_save (st : Store) (sid2 : Nat) (uid cid : Int)
    (role content : String) (sid : Nat) :
    stateOf ((save_message st sid2 uid cid role content).2) sid
      = stateOf st sid := by
  unfold save_message
  split
  · rfl
  · unfold stateOf
    exact find?_id_map_state st.sessions _ (fun s => by split <;> rfl)
      (fun s => by split <;> rfl) sid

theorem messages_set_active (st : Store) (uid cid : Int) (sid2 : Nat) :
    ((set_active_session st uid cid sid2).2).messages = st.messages := by
  unfold set_active_session
  split <;> rfl

theorem stateOf_set_active (st : Store) (uid cid : Int) (sid2 sid : Nat) :
    stateOf ((set_active_session st uid cid sid2).2) sid = stateOf st sid := by
  unfold set_active_session
  split <;> rfl

theorem stateOf_create (st : Store) (uid cid : Int) (nm : Option String)
    (pid : Option Nat) (sid : Nat) (h : ∃ s ∈ st.sessions, s.id = sid) :
    stateOf ((create_session st uid cid nm pid).2) sid = stateOf st sid := by
  obtain ⟨s0, hs0, hid0⟩ := h
  have hsome : (st.sessions.find? fun s : SessionRow => s.id == sid).isSome :=
    List.find?_isSome.mpr ⟨s0, hs0, by simp [hid0]⟩
  unfold stateOf create_session
  rw [List.find?_append]
  cases hfind : st.sessions.find? fun s : SessionRow => s.id == sid with
  | none =>
    rw [hfind] at hsome
    simp at hsome
  | some s1 => simp [hfind]

theorem stateOf_get_or_create (st : Store) (uid cid : Int) (sid : Nat)
    (h : ∃ s ∈ st.sessions, s.id = sid) :
    stateOf ((get_or_create_active_session st uid cid).2) sid
      = stateOf st sid := by
  unfold get_or_create_active_session
  cases hact : get_active_session st uid cid with
  | some s => rfl
  | none =>
    exact (stateOf_set_active _ uid cid _ sid).trans
      (stateOf_create st uid cid none none sid h)

theorem messages_get_or_create (st : Store) (uid cid : Int) :
    ((get_or_create_active_session st uid cid).2).messages = st.messages := by
  unfold get_or_create_active_session
  cases hact : get_active_session st uid cid with
  | some s => rfl
  | none => exact messages_set_active _ uid cid _

theorem titleStep_ok (st1 : Store) (sid1 : Nat) (b : Bool)
    (tr : Option (Option (List Char))) :
    ∃ st2, titleStep st1 sid1 b (.ok tr) = .ok st2
      ∧ st2.messages = st1.messages
      ∧ ∀ sid, stateOf st2 sid = stateOf st1 sid := by
  unfold titleStep
  split
  · exact ⟨_, rfl, rfl, fun sid => stateOf_rename st1 sid1 _ sid⟩
  · exact ⟨st1, rfl, rfl, fun _ => rfl⟩

theorem persistTurn_outcome (st2 : Store) (sid1 : Nat) (uid cid : Int)
    (input reply : String) (b : Bool) (tok : Option String) :
    (persistTurn st2 sid1 uid cid input reply b tok).1 = .reply reply := by
  unfold persistTurn
  rcases tok with _ | t <;> rfl

theorem persistTurn_stateOf (st2 : Store) (sid1 : Nat) (uid cid : Int)
    (input reply : String) (b : Bool) (tok : Option String) (sid : Nat) :
    stateOf (persistTurn st2 sid1 uid cid input reply b tok).2 sid
      = stateOf st2 sid := by
  have h1 := stateOf_save st2 sid1 uid cid "user" input sid
  have h2 := stateOf_save ((save_message st2 sid1 uid cid "user" input).2)
    sid1 uid cid "assistant" reply sid
  rcases tok with _ | t
  · exact h2.trans h1
  · cases b
    · exact h2.trans h1
    · exact (stateOf_update_tok _ sid1 t sid).trans (h2.trans h1)

/-- C7: when the model call of a turn raises (description `e`) after a
successful title step, the turn aborts with no message persisted, the state
document of every pre-existing session untouched, and the user shown
"LLM error: " followed by the failure description. -/
theorem handle_message_failed_turn (st : Store) (uid cid : Int)
    (input : String) (tr : Option (Option (List Char))) (e : String)
    (tokenWrite : Option String) (sid : Nat)
    (hsid : ∃ s ∈ st.sessions, s.id = sid) :
    ((handle_message st uid cid input (.ok tr) (.error e) tokenWrite).2).messages
      = st.messages
  ∧ stateOf ((handle_message st uid cid input (.ok tr) (.error e) tokenWrite).2)
      sid = stateOf st sid
  ∧ (handle_message st uid cid input (.ok tr) (.error e) tokenWrite).1
      = .llmError ("LLM error: " ++ e) := by
  obtain ⟨st2, hst2, hmsg2, hstate2⟩ := titleStep_ok
    ((get_or_create_active_session st uid cid).2)
    ((get_or_create_active_session st uid cid).1.id)
    (!((get_session_messages ((get_or_create_active_session st uid cid).2)
          ((get_or_create_active_session st uid cid).1.id) 20).any
        fun m => m.role == "user")) tr
  simp only [handle_message]
  rw [hst2]
  refine ⟨?_, ?_, ?_⟩
  · exact hmsg2.trans (messages_get_or_create st uid cid)
  · exact (hstate2 sid).trans (stateOf_get_or_create st uid cid sid hsid)
  · rfl

/-- C7 witness: a turn on `c3Store` whose model call raises "boom" keeps the
messages table and session 1's state untouched and reports the error. -/
theorem handle_message_failed_turn_spot :
    ((handle_message c3Store 1 1 "hi" (.ok none) (.error "boom") none).2).messages
      = c3Store.messages
  ∧ stateOf ((handle_message c3Store 1 1 "hi" (.ok none) (.error "boom") none).2)
      1 = stateOf c3Store 1
  ∧ (handle_message c3Store 1 1 "hi" (.ok none) (.error "boom") none).1
      = .llmError ("LLM error: " ++ "boom") :=
  handle_message_failed_turn c3Store 1 1 "hi" none "boom" none 1 (by decide)

/-- C1 (refuting the claimed state persistence): a successful turn leaves
every pre-existing session's stored state document exactly as it was — in
particular, even when the model returns an `updated_state` different from the
pre-call document, `handle_message` never persists it (it calls no
`update_session_state`; the token write it attempts instead belongs to an API
absent from `persistence.py`). -/
theorem handle_message_state_never_persisted (st : Store) (uid cid : Int)
    (input reply : String) (tr : Option (Option (List Char))) (updState : Json)
    (tokenWrite : Option String) (sid : Nat)
    (hsid : ∃ s ∈ st.sessions, s.id = sid) :
    stateOf ((handle_message st uid cid input (.ok tr)
        (.ok (reply, updState)) tokenWrite).2) sid = stateOf st sid
  ∧ (handle_message st uid cid input (.ok tr) (.ok (reply, updState))
      tokenWrite).1 = .reply reply := by
  obtain ⟨st2, hst2, hmsg2, hstate2⟩ := titleStep_ok
    ((get_or_create_active_session st uid cid).2)
    ((get_or_create_active_session st uid cid).1.id)
    (!((get_session_messages ((get_or_create_active_session st uid cid).2)
          ((get_or_create_active_session st uid cid).1.id) 20).any
        fun m => m.role == "user")) tr
  simp only [handle_message]
  rw [hst2]
  constructor
  · exact (persistTurn_stateOf st2 _ uid cid input reply _ tokenWrite sid).trans
      ((hstate2 sid).trans (stateOf_get_or_create st uid cid sid hsid))
  · exact persistTurn_outcome st2 _ uid cid input reply _ tokenWrite

/-- C1 witness: on `c3Store` (whose session 1 stores state `{}`), a
successful turn returning the distinct state document `{"k": 1}` leaves the
stored state at its pre-turn value. -/
theorem handle_message_state_never_persisted_spot :
    stateOf ((handle_message c3Store 1 1 "hi" (.ok none)
        (.ok ("r", Json.obj [(['k'], Json.num 1)])) none).2) 1
      = stateOf c3Store 1
  ∧ (handle_message c3Store 1 1 "hi" (.ok none)
      (.ok ("r", Json.obj [(['k'], Json.num 1)])) none).1 = .reply "r" :=
  handle_message_state_never_persisted c3Store 1 1 "hi" "r" none
    (Json.obj [(['k'], Json.num 1)]) none 1 (by decide)

/-! ## C9: `json.dumps` / `json.loads` round trip -/

theorem digitChar_spec (d : Nat) (h : d < 10) :
    isDigitChar (digitChar d) = true ∧ digitVal (digitChar d) = d := by
  interval_cases d <;> exact ⟨rfl, rfl⟩

theorem serNat_head (n : Nat) :
    ∃ c cs, serNat n = c :: cs ∧ isDigitChar c = true := by
  induction n using Nat.strong_induction_on with
  | _ n ih =>
    by_cases h : n < 10
    · exact ⟨digitChar n, [], by rw [serNat, dif_pos h], (digitChar_spec n h).1⟩
    · obtain ⟨c, cs, hser, hc⟩ := ih (n / 10) (Nat.div_lt_self (by omega) (by omega))
      refine ⟨c, cs ++ [digitChar (n % 10)], ?_, hc⟩
      rw [serNat, dif_neg h, hser]
      rfl

theorem noDigit_parseDigits (l : List Char) (acc : Nat)
    (h : noDigit l = true) : parseDigits l acc = (acc, l) := by
  cases l with
  | nil => rfl
  | cons c cs =>
    unfold parseDigits
    rw [if_neg]
    unfold noDigit at h
    simp only [Bool.not_eq_true'] at h
    simp [h]

theorem parseDigits_cons (c : Char) (cs : List Char) (acc : Nat) :
    parseDigits (c :: cs) acc =
      if isDigitChar c = true then parseDigits cs (acc * 10 + digitVal c)
      else (acc, c :: cs) := rfl

theorem parseDigits_serNat (n : Nat) (rest : List Char) (acc : Nat) :
    parseDigits (serNat n ++ rest) acc
      = parseDigits rest (acc * 10 ^ (serNat n).length + n) := by
  induction n using Nat.strong_induction_on generalizing rest acc with
  | _ n ih =>
    by_cases h : n < 10
    · rw [serNat, dif_pos h, List.singleton_append, parseDigits_cons,
        if_pos (digitChar_spec n h).1, (digitChar_spec n h).2]
      congr 1
    · have hlt : n / 10 < n := Nat.div_lt_self (by omega) (by omega)
      have hd := digitChar_spec (n % 10) (Nat.mod_lt n (by omega))
      rw [serNat, dif_neg h, List.append_assoc, ih (n / 10) hlt,
        List.singleton_append, parseDigits_cons, if_pos hd.1, hd.2]
      congr 1
      rw [List.length_append, List.length_singleton, pow_succ, Nat.add_mul,
        Nat.add_assoc, ← Nat.mul_assoc]
      congr 1
      omega

theorem isDigitChar_ne (c : Char) (h : isDigitChar c = true) :
    c ≠ 'n' ∧ c ≠ 't' ∧ c ≠ 'f' ∧ c ≠ '"' ∧ c ≠ '[' ∧ c ≠ '\x7b' ∧
      c ≠ '-' ∧ c ≠ ' ' ∧ c ≠ '\t' ∧ c ≠ '\n' ∧ c ≠ '\r' := by
  refine ⟨?_, ?_, ?_, ?_, ?_, ?_, ?_, ?_, ?_, ?_, ?_⟩ <;>
    · rintro rfl
      simp [isDigitChar] at h

theorem parseNeg_cons (c : Char) (cs : List Char) :
    parseNeg (c :: cs) =
      if isDigitChar c then
        some (-(((parseDigits (c :: cs) 0).1 : Nat) : Int),
          (parseDigits (c :: cs) 0).2)
      else none := rfl

theorem parseIntTok_cons (c : Char) (cs : List Char) :
    parseIntTok (c :: cs) =
      if c = '-' then parseNeg cs
      else if isDigitChar c then
        some ((((parseDigits (c :: cs) 0).1 : Nat) : Int),
          (parseDigits (c :: cs) 0).2)
      else none := rfl

theorem parseIntTok_serInt (n : Int) (rest : List Char)
    (h : noDigit rest = true) : parseIntTok (serInt n ++ rest) = some (n, rest) := by
  by_cases hn : n < 0
  · obtain ⟨c, cs, hser, hc⟩ := serNat_head (-n).toNat
    have hcons : serNat (-n).toNat ++ rest = c :: (cs ++ rest) := by
      rw [hser]
      rfl
    rw [serInt, if_pos hn]
    show parseIntTok ('-' :: (serNat (-n).toNat ++ rest)) = _
    rw [parseIntTok_cons, if_pos rfl, hcons, parseNeg_cons, if_pos hc, ← hcons,
      parseDigits_serNat, noDigit_parseDigits _ _ h]
    have h1 : (((-n).toNat : Nat) : Int) = -n := Int.toNat_of_nonneg (by omega)
    simp only [Nat.zero_mul, Nat.zero_add, h1, neg_neg]
  · obtain ⟨c, cs, hser, hc⟩ := serNat_head n.toNat
    have hne := isDigitChar_ne c hc
    have hcons : serNat n.toNat ++ rest = c :: (cs ++ rest) := by
      rw [hser]
      rfl
    rw [serInt, if_neg hn, hcons, parseIntTok_cons, if_neg hne.2.2.2.2.2.2.1,
      if_pos hc, ← hcons, parseDigits_serNat, noDigit_parseDigits _ _ h]
    have h1 : ((n.toNat : Nat) : Int) = n := Int.toNat_of_nonneg (by omega)
    simp only [Nat.zero_mul, Nat.zero_add, h1]

theorem parseStrBody_serStr (s rest : List Char) :
    parseStrBody (serStr s ++ '"' :: rest) = some (s, rest) := by
  induction s with
  | nil =>
    show parseStrBody ('"' :: rest) = _
    unfold parseStrBody
    rw [if_pos rfl]
  | cons c cs ih =>
    show parseStrBody (escapeChar c ++ serStr cs ++ '"' :: rest) = _
    by_cases h1 : c = '"'
    · subst h1
      rw [escapeChar, if_pos rfl]
      show parseEsc '"' (parseStrBody (serStr cs ++ '"' :: rest)) = _
      rw [ih]
      rfl
    · by_cases h2 : c = '\\'
      · subst h2
        rw [escapeChar, if_neg (by decide), if_pos rfl]
        show parseEsc '\\' (parseStrBody (serStr cs ++ '"' :: rest)) = _
        rw [ih]
        rfl
      · rw [escapeChar, if_neg h1, if_neg h2]
        show parseStrBody (c :: (serStr cs ++ '"' :: rest)) = _
        unfold parseStrBody
        rw [if_neg h1, if_neg h2, ih]

theorem skipWs_not_ws (c : Char) (cs : List Char)
    (h : ¬(c = ' ' ∨ c = '\t' ∨ c = '\n' ∨ c = '\r')) :
    skipWs (c :: cs) = c :: cs := by
  unfold skipWs
  rw [if_neg h]

theorem valueHead_not_ws (c : Char) (h : valueHead c = true) :
    ¬(c = ' ' ∨ c = '\t' ∨ c = '\n' ∨ c = '\r') := by
  rintro (rfl | rfl | rfl | rfl) <;> simp [valueHead, isDigitChar] at h

theorem parseVal_ws (fuel : Nat) (l : List Char) :
    parseVal fuel (' ' :: l) = parseVal fuel l := by
  cases fuel with
  | zero => simp [parseVal]
  | succ f =>
    simp only [parseVal]
    rw [show skipWs (' ' :: l) = skipWs l from by rw [skipWs]; simp]

theorem parseElems_ws (fuel : Nat) (l : List Char) (acc : List Json) :
    parseElems fuel (' ' :: l) acc = parseElems fuel l acc := by
  cases fuel with
  | zero => simp [parseElems]
  | succ f =>
    simp only [parseElems]
    rw [parseVal_ws]

theorem parseFields_ws (fuel : Nat) (l : List Char)
    (acc : List (List Char × Json)) :
    parseFields fuel (' ' :: l) acc = parseFields fuel l acc := by
  cases fuel with
  | zero => simp [parseFields]
  | succ f =>
    simp only [parseFields]
    rw [show skipWs (' ' :: l) = skipWs l from by rw [skipWs]; simp]

theorem serialize_head (j : Json) :
    ∃ c cs, serialize j = c :: cs ∧ valueHead c = true := by
  cases j with
  | null => exact ⟨'n', _, rfl, rfl⟩
  | bool b => cases b
              · exact ⟨'f', _, rfl, rfl⟩
              · exact ⟨'t', _, rfl, rfl⟩
  | num n =>
    by_cases hn : n < 0
    · exact ⟨'-', _, by rw [show serialize (.num n) = serInt n from rfl,
        serInt, if_pos hn], rfl⟩
    · obtain ⟨c, cs, hser, hc⟩ := serNat_head n.toNat
      refine ⟨c, cs, ?_, by simp [valueHead, hc]⟩
      rw [show serialize (.num n) = serInt n from rfl, serInt, if_neg hn, hser]
  | str s => exact ⟨'"', _, rfl, rfl⟩
  | arr es => cases es
              · exact ⟨'[', _, rfl, rfl⟩
              · exact ⟨'[', _, rfl, rfl⟩
  | obj fs => cases fs
              · exact ⟨'\x7b', _, rfl, rfl⟩
              · exact ⟨'\x7b', _, rfl, rfl⟩

theorem jsize_pos (j : Json) : 1 ≤ jsize j := by
  cases j <;> simp [jsize]

theorem valueHead_ne_close (c : Char) (h : valueHead c = true) :
    c ≠ ']' ∧ c ≠ '\x7d' := by
  constructor <;>
    · rintro rfl
      simp [valueHead, isDigitChar] at h

theorem noDigit_rbracket (rest : List Char) : noDigit (']' :: rest) = true := by
  simp [noDigit, isDigitChar]

theorem noDigit_rbrace (rest : List Char) : noDigit ('\x7d' :: rest) = true := by
  simp [noDigit, isDigitChar]

theorem noDigit_comma (rest : List Char) : noDigit (',' :: rest) = true := by
  simp [noDigit, isDigitChar]

theorem serElems_pair (e e2 : Json) (es : List Json) :
    serElems (e :: e2 :: es)
      = serialize e ++ ',' :: ' ' :: serElems (e2 :: es) := by
  rw [serElems]
  exact fun h => List.noConfusion h

theorem serFields_single (f : List Char × Json) :
    serFields [f] = '"' :: serStr f.1 ++ '"' :: ':' :: ' ' :: serialize f.2 := by
  rw [serFields]

theorem serFields_pair (f g : List Char × Json) (fs : List (List Char × Json)) :
    serFields (f :: g :: fs)
      = ('"' :: serStr f.1 ++ '"' :: ':' :: ' ' :: serialize f.2)
        ++ ',' :: ' ' :: serFields (g :: fs) := by
  rw [serFields]
  exact fun h => List.noConfusion h

theorem serElems_cons_shape (e : Json) (es : List Json) :
    ∃ t, serElems (e :: es) = serialize e ++ t := by
  cases es with
  | nil =>
    refine ⟨[], ?_⟩
    rw [serElems, List.append_nil]
  | cons e2 es3 =>
    exact ⟨',' :: ' ' :: serElems (e2 :: es3), serElems_pair e e2 es3⟩

theorem serFields_head (f : List Char × Json) (fs : List (List Char × Json)) :
    ∃ t, serFields (f :: fs) = '"' :: t := by
  cases fs with
  | nil =>
    exact ⟨serStr f.1 ++ '"' :: ':' :: ' ' :: serialize f.2, serFields_single f⟩
  | cons g fs2 =>
    refine ⟨serStr f.1 ++ '"' :: ':' :: ' ' :: serialize f.2
      ++ ',' :: ' ' :: serFields (g :: fs2), ?_⟩
    rw [serFields_pair]
    simp

/-- Parsing inverts serialization: with enough fuel, `parseVal` reads back
exactly the document `serialize` wrote, leaving the rest of the input
untouched (stated simultaneously for values, array tails and object tails,
by induction over the fuel). -/
theorem parse_ser (fuel : Nat) :
    (∀ (j : Json) (rest : List Char), jsize j ≤ fuel → noDigit rest = true →
      parseVal fuel (serialize j ++ rest) = some (j, rest))
  ∧ (∀ (es : List Json) (acc : List Json) (rest : List Char), es ≠ [] →
      jsizeList es ≤ fuel →
      parseElems fuel (serElems es ++ ']' :: rest) acc
        = some (.arr (acc ++ es), rest))
  ∧ (∀ (fs : List (List Char × Json)) (acc : List (List Char × Json))
      (rest : List Char), fs ≠ [] → jsizeFields fs ≤ fuel →
      parseFields fuel (serFields fs ++ '\x7d' :: rest) acc
        = some (.obj (acc ++ fs), rest)) := by
  induction fuel with
  | zero =>
    refine ⟨fun j rest hsize _ => absurd hsize (by have := jsize_pos j; omega),
      fun es acc rest hne hsize => ?_, fun fs acc rest hne hsize => ?_⟩
    · cases es with
      | nil => exact absurd rfl hne
      | cons e es2 =>
        exfalso
        have h1 := jsize_pos e
        rw [jsizeList] at hsize
        omega
    · cases fs with
      | nil => exact absurd rfl hne
      | cons f fs2 =>
        exfalso
        have h1 := jsize_pos f.2
        rw [jsizeFields] at hsize
        omega
  | succ fuel ih =>
    obtain ⟨ihP, ihQ, ihR⟩ := ih
    refine ⟨?_, ?_, ?_⟩
    · intro j rest hsize hrest
      cases j with
      | null =>
        rw [show serialize Json.null ++ rest = 'n' :: 'u' :: 'l' :: 'l' :: rest
            from rfl, parseVal, skipWs_not_ws 'n' _ (by decide)]
        show parseValCore fuel 'n' ('u' :: 'l' :: 'l' :: rest)
          = some (Json.null, rest)
        rw [parseValCore, if_pos rfl]
        rfl
      | bool b =>
        cases b with
        | true =>
          rw [show serialize (Json.bool true) ++ rest
              = 't' :: 'r' :: 'u' :: 'e' :: rest from rfl, parseVal,
            skipWs_not_ws 't' _ (by decide)]
          show parseValCore fuel 't' ('r' :: 'u' :: 'e' :: rest)
            = some (Json.bool true, rest)
          rw [parseValCore, if_neg (by decide), if_pos rfl]
          rfl
        | false =>
          rw [show serialize (Json.bool false) ++ rest
              = 'f' :: 'a' :: 'l' :: 's' :: 'e' :: rest from rfl, parseVal,
            skipWs_not_ws 'f' _ (by decide)]
          show parseValCore fuel 'f' ('a' :: 'l' :: 's' :: 'e' :: rest)
            = some (Json.bool false, rest)
          rw [parseValCore, if_neg (by decide), if_neg (by decide), if_pos rfl]
          rfl
      | num n =>
        have hhead : ∃ c cs0, serialize (Json.num n) = c :: cs0 ∧
            (isDigitChar c = true ∨ c = '-') := by
          by_cases hn : n < 0
          · exact ⟨'-', serNat (-n).toNat,
              by rw [show serialize (Json.num n) = serInt n from rfl, serInt,
                if_pos hn], Or.inr rfl⟩
          · obtain ⟨c, cs0, h1, h2⟩ := serNat_head n.toNat
            exact ⟨c, cs0,
              by rw [show serialize (Json.num n) = serInt n from rfl, serInt,
                if_neg hn, h1], Or.inl h2⟩
        obtain ⟨c, cs0, hser, hc⟩ := hhead
        have hnw : ¬(c = ' ' ∨ c = '\t' ∨ c = '\n' ∨ c = '\r') := by
          rcases hc with hd | rfl
          · rintro (rfl | rfl | rfl | rfl) <;> simp [isDigitChar] at hd
          · decide
        have hne : c ≠ 'n' ∧ c ≠ 't' ∧ c ≠ 'f' ∧ c ≠ '"' ∧ c ≠ '[' ∧
            c ≠ '\x7b' := by
          rcases hc with hd | rfl
          · have h0 := isDigitChar_ne c hd
            exact ⟨h0.1, h0.2.1, h0.2.2.1, h0.2.2.2.1, h0.2.2.2.2.1,
              h0.2.2.2.2.2.1⟩
          · exact ⟨by decide, by decide, by decide, by decide, by decide,
              by decide⟩
        have hser2 : serialize (Json.num n) = serInt n := rfl
        rw [hser, List.cons_append, parseVal, skipWs_not_ws c _ hnw]
        show parseValCore fuel c (cs0 ++ rest) = some (Json.num n, rest)
        rw [parseValCore, if_neg hne.1, if_neg hne.2.1,
          if_neg hne.2.2.1, if_neg hne.2.2.2.1, if_neg hne.2.2.2.2.1,
          if_neg hne.2.2.2.2.2,
          show c :: (cs0 ++ rest) = serInt n ++ rest from by
            rw [← List.cons_append, ← hser, hser2],
          numTok, parseIntTok_serInt n rest hrest]
      | str s =>
        rw [show serialize (Json.str s) ++ rest
            = '"' :: (serStr s ++ '"' :: rest) from by
              show ('"' :: (serStr s ++ ['"'])) ++ rest = _
              simp,
          parseVal, skipWs_not_ws '"' _ (by decide)]
        show parseValCore fuel '"' (serStr s ++ '"' :: rest)
          = some (Json.str s, rest)
        rw [parseValCore, if_neg (by decide), if_neg (by decide),
          if_neg (by decide), if_pos rfl, strTok, parseStrBody_serStr]
      | arr es =>
        cases es with
        | nil =>
          rw [show serialize (Json.arr []) ++ rest = '[' :: ']' :: rest
              from rfl, parseVal, skipWs_not_ws '[' _ (by decide)]
          show parseValCore fuel '[' (']' :: rest) = some (Json.arr [], rest)
          rw [parseValCore, if_neg (by decide), if_neg (by decide),
            if_neg (by decide), if_neg (by decide), if_pos rfl,
            arrDispatch, skipWs_not_ws ']' _ (by decide)]
          show parseArrTail fuel ']' rest = some (Json.arr [], rest)
          rw [parseArrTail, if_pos rfl]
        | cons e es2 =>
          obtain ⟨c, cs0, hsf, hcf⟩ := serialize_head e
          obtain ⟨t, ht⟩ := serElems_cons_shape e es2
          have hX : serElems (e :: es2) ++ ']' :: rest
              = c :: (cs0 ++ (t ++ ']' :: rest)) := by
            rw [ht, hsf]
            simp
          have hsz : jsizeList (e :: es2) ≤ fuel := by
            rw [show jsize (Json.arr (e :: es2))
                = 1 + jsizeList (e :: es2) from by rw [jsize]] at hsize
            omega
          rw [show serialize (Json.arr (e :: es2)) ++ rest
              = '[' :: (serElems (e :: es2) ++ ']' :: rest) from by
                show ('[' :: (serElems (e :: es2) ++ [']'])) ++ rest = _
                simp,
            parseVal, skipWs_not_ws '[' _ (by decide)]
          show parseValCore fuel '[' (serElems (e :: es2) ++ ']' :: rest)
            = some (Json.arr (e :: es2), rest)
          rw [parseValCore, if_neg (by decide), if_neg (by decide),
            if_neg (by decide), if_neg (by decide), if_pos rfl,
            arrDispatch, hX, skipWs_not_ws c _ (valueHead_not_ws c hcf)]
          show parseArrTail fuel c (cs0 ++ (t ++ ']' :: rest))
            = some (Json.arr (e :: es2), rest)
          rw [parseArrTail, if_neg (valueHead_ne_close c hcf).1, ← hX,
            ihQ (e :: es2) [] rest (List.cons_ne_nil e es2) hsz,
            List.nil_append]
      | obj fs =>
        cases fs with
        | nil =>
          rw [show serialize (Json.obj []) ++ rest = '\x7b' :: '\x7d' :: rest
              from rfl, parseVal, skipWs_not_ws '\x7b' _ (by decide)]
          show parseValCore fuel '\x7b' ('\x7d' :: rest)
            = some (Json.obj [], rest)
          rw [parseValCore, if_neg (by decide), if_neg (by decide),
            if_neg (by decide), if_neg (by decide), if_neg (by decide),
            if_pos rfl, objDispatch, skipWs_not_ws '\x7d' _ (by decide)]
          show parseObjTail fuel '\x7d' rest = some (Json.obj [], rest)
          rw [parseObjTail, if_pos rfl]
        | cons f fs2 =>
          obtain ⟨t, ht⟩ := serFields_head f fs2
          have hX : serFields (f :: fs2) ++ '\x7d' :: rest
              = '"' :: (t ++ '\x7d' :: rest) := by
            rw [ht]
            rfl
          have hsz : jsizeFields (f :: fs2) ≤ fuel := by
            rw [show jsize (Json.obj (f :: fs2))
                = 1 + jsizeFields (f :: fs2) from by rw [jsize]] at hsize
            omega
          rw [show serialize (Json.obj (f :: fs2)) ++ rest
              = '\x7b' :: (serFields (f :: fs2) ++ '\x7d' :: rest) from by
                show ('\x7b' :: (serFields (f :: fs2) ++ ['\x7d'])) ++ rest = _
                simp,
            parseVal, skipWs_not_ws '\x7b' _ (by decide)]
          show parseValCore fuel '\x7b' (serFields (f :: fs2) ++ '\x7d' :: rest)
            = some (Json.obj (f :: fs2), rest)
          rw [parseValCore, if_neg (by decide), if_neg (by decide),
            if_neg (by decide), if_neg (by decide), if_neg (by decide),
            if_pos rfl, objDispatch, hX, skipWs_not_ws '"' _ (by decide)]
          show parseObjTail fuel '"' (t ++ '\x7d' :: rest)
            = some (Json.obj (f :: fs2), rest)
          rw [parseObjTail, if_neg (by decide), ← hX,
            ihR (f :: fs2) [] rest (List.cons_ne_nil f fs2) hsz,
            List.nil_append]
    · intro es acc rest hne hsize
      cases es with
      | nil => exact absurd rfl hne
      | cons e es2 =>
        have hsz_e : jsize e ≤ fuel := by
          rw [jsizeList] at hsize
          omega
        cases es2 with
        | nil =>
          rw [parseElems,
            show serElems [e] ++ ']' :: rest = serialize e ++ ']' :: rest
              from by rw [serElems],
            ihP e (']' :: rest) hsz_e (noDigit_rbracket rest)]
          show elemCont fuel acc (e, ']' :: rest)
            = some (Json.arr (acc ++ [e]), rest)
          rw [elemCont, skipWs_not_ws ']' _ (by decide)]
          show elemSep fuel acc e ']' rest = some (Json.arr (acc ++ [e]), rest)
          rw [elemSep, if_neg (by decide), if_pos rfl]
        | cons e2 es3 =>
          have hsz2 : jsizeList (e2 :: es3) ≤ fuel := by
            rw [jsizeList] at hsize
            omega
          rw [parseElems,
            show serElems (e :: e2 :: es3) ++ ']' :: rest
              = serialize e
                ++ (',' :: ' ' :: (serElems (e2 :: es3) ++ ']' :: rest))
              from by rw [serElems_pair]; simp,
            ihP e _ hsz_e (noDigit_comma _)]
          show elemCont fuel acc
              (e, ',' :: ' ' :: (serElems (e2 :: es3) ++ ']' :: rest))
            = some (Json.arr (acc ++ (e :: e2 :: es3)), rest)
          rw [elemCont, skipWs_not_ws ',' _ (by decide)]
          show elemSep fuel acc e ','
              (' ' :: (serElems (e2 :: es3) ++ ']' :: rest))
            = some (Json.arr (acc ++ (e :: e2 :: es3)), rest)
          rw [elemSep, if_pos rfl, parseElems_ws,
            ihQ (e2 :: es3) (acc ++ [e]) rest (List.cons_ne_nil e2 es3) hsz2]
          simp
    · intro fs acc rest hne hsize
      cases fs with
      | nil => exact absurd rfl hne
      | cons f fs2 =>
        have hsz_v : jsize f.2 ≤ fuel := by
          rw [jsizeFields] at hsize
          omega
        cases fs2 with
        | nil =>
          rw [parseFields,
            show serFields [f] ++ '\x7d' :: rest
              = '"' :: (serStr f.1
                ++ '"' :: ':' :: ' ' :: (serialize f.2 ++ '\x7d' :: rest))
              from by rw [serFields_single]; simp,
            skipWs_not_ws '"' _ (by decide)]
          show keyStart fuel acc '"'
              (serStr f.1
                ++ '"' :: ':' :: ' ' :: (serialize f.2 ++ '\x7d' :: rest))
            = some (Json.obj (acc ++ [f]), rest)
          rw [keyStart, if_pos rfl, parseStrBody_serStr]
          show keyCont fuel acc
              (f.1, ':' :: ' ' :: (serialize f.2 ++ '\x7d' :: rest))
            = some (Json.obj (acc ++ [f]), rest)
          rw [keyCont, skipWs_not_ws ':' _ (by decide)]
          show fieldColon fuel acc f.1 ':'
              (' ' :: (serialize f.2 ++ '\x7d' :: rest))
            = some (Json.obj (acc ++ [f]), rest)
          rw [fieldColon, if_pos rfl, parseVal_ws,
            ihP f.2 ('\x7d' :: rest) hsz_v (noDigit_rbrace rest)]
          show fieldValCont fuel acc f.1 (f.2, '\x7d' :: rest)
            = some (Json.obj (acc ++ [f]), rest)
          rw [fieldValCont, skipWs_not_ws '\x7d' _ (by decide)]
          show fieldSep fuel acc f.1 f.2 '\x7d' rest
            = some (Json.obj (acc ++ [f]), rest)
          rw [fieldSep, if_neg (by decide), if_pos rfl]
        | cons g fs3 =>
          have hsz2 : jsizeFields (g :: fs3) ≤ fuel := by
            rw [jsizeFields] at hsize
            omega
          rw [parseFields,
            show serFields (f :: g :: fs3) ++ '\x7d' :: rest
              = '"' :: (serStr f.1
                ++ '"' :: ':' :: ' ' :: (serialize f.2
                  ++ ',' :: ' ' :: (serFields (g :: fs3) ++ '\x7d' :: rest)))
              from by rw [serFields_pair]; simp,
            skipWs_not_ws '"' _ (by decide)]
          show keyStart fuel acc '"'
              (serStr f.1
                ++ '"' :: ':' :: ' ' :: (serialize f.2
                  ++ ',' :: ' ' :: (serFields (g :: fs3) ++ '\x7d' :: rest)))
            = some (Json.obj (acc ++ (f :: g :: fs3)), rest)
          rw [keyStart, if_pos rfl, parseStrBody_serStr]
          show keyCont fuel acc
              (f.1, ':' :: ' ' :: (serialize f.2
                ++ ',' :: ' ' :: (serFields (g :: fs3) ++ '\x7d' :: rest)))
            = some (Json.obj (acc ++ (f :: g :: fs3)), rest)
          rw [keyCont, skipWs_not_ws ':' _ (by decide)]
          show fieldColon fuel acc f.1 ':'
              (' ' :: (serialize f.2
                ++ ',' :: ' ' :: (serFields (g :: fs3) ++ '\x7d' :: rest)))
            = some (Json.obj (acc ++ (f :: g :: fs3)), rest)
          rw [fieldColon, if_pos rfl, parseVal_ws,
            ihP f.2 _ hsz_v (noDigit_comma _)]
          show fieldValCont fuel acc f.1
              (f.2, ',' :: ' ' :: (serFields (g :: fs3) ++ '\x7d' :: rest))
            = some (Json.obj (acc ++ (f :: g :: fs3)), rest)
          rw [fieldValCont, skipWs_not_ws ',' _ (by decide)]
          show fieldSep fuel acc f.1 f.2 ','
              (' ' :: (serFields (g :: fs3) ++ '\x7d' :: rest))
            = some (Json.obj (acc ++ (f :: g :: fs3)), rest)
          rw [fieldSep, if_pos rfl, parseFields_ws,
            ihR (g :: fs3) (acc ++ [f]) rest (List.cons_ne_nil g fs3) hsz2]
          simp

theorem serInt_len (n : Int) : 1 ≤ (serInt n).length := by
  by_cases hn : n < 0
  · rw [serInt, if_pos hn]
    simp
  · rw [serInt, if_neg hn]
    obtain ⟨c, cs, h1, _⟩ := serNat_head n.toNat
    rw [h1]
    simp

theorem ser_length (N : Nat) :
    (∀ j : Json, jsize j ≤ N → jsize j ≤ (serialize j).length)
  ∧ (∀ es : List Json, jsizeList es ≤ N →
      jsizeList es ≤ (serElems es).length + 1)
  ∧ (∀ fs : List (List Char × Json), jsizeFields fs ≤ N →
      jsizeFields fs ≤ (serFields fs).length + 1) := by
  induction N with
  | zero =>
    refine ⟨fun j h => absurd h (by have := jsize_pos j; omega),
      fun es h => ?_, fun fs h => ?_⟩
    · cases es with
      | nil =>
        rw [jsizeList]
        exact Nat.zero_le _
      | cons e es2 =>
        exact absurd h (by have := jsize_pos e; rw [jsizeList]; omega)
    · cases fs with
      | nil =>
        rw [jsizeFields]
        exact Nat.zero_le _
      | cons f fs2 =>
        exact absurd h (by have := jsize_pos f.2; rw [jsizeFields]; omega)
  | succ N ih =>
    obtain ⟨ihP, ihQ, ihR⟩ := ih
    refine ⟨?_, ?_, ?_⟩
    · intro j h
      cases j with
      | null => decide
      | bool b => cases b <;> decide
      | num n =>
        have h1 := serInt_len n
        rw [jsize, show serialize (Json.num n) = serInt n from rfl]
        omega
      | str s =>
        rw [jsize,
          show serialize (Json.str s) = '"' :: (serStr s ++ ['"']) from rfl]
        simp only [List.length_cons]
        omega
      | arr es =>
        cases es with
        | nil => decide
        | cons e es2 =>
          have hsz : jsizeList (e :: es2) ≤ N := by
            rw [jsize] at h
            omega
          have h2 := ihQ (e :: es2) hsz
          rw [jsize, show serialize (Json.arr (e :: es2))
              = '[' :: (serElems (e :: es2) ++ [']']) from rfl]
          simp only [List.length_cons, List.length_append] at h2 ⊢
          omega
      | obj fs =>
        cases fs with
        | nil => decide
        | cons f fs2 =>
          have hsz : jsizeFields (f :: fs2) ≤ N := by
            rw [jsize] at h
            omega
          have h2 := ihR (f :: fs2) hsz
          rw [jsize, show serialize (Json.obj (f :: fs2))
              = '\x7b' :: (serFields (f :: fs2) ++ ['\x7d']) from rfl]
          simp only [List.length_cons, List.length_append] at h2 ⊢
          omega
    · intro es h
      cases es with
      | nil =>
        rw [jsizeList]
        exact Nat.zero_le _
      | cons e es2 =>
        cases es2 with
        | nil =>
          simp only [jsizeList] at h ⊢
          have hse : jsize e ≤ N := by omega
          have h2 := ihP e hse
          rw [serElems]
          omega
        | cons e2 es3 =>
          simp only [jsizeList] at h ⊢
          have hse : jsize e ≤ N := by omega
          have hsz2 : jsizeList (e2 :: es3) ≤ N := by
            simp only [jsizeList]
            omega
          have h2 := ihP e hse
          have h3 := ihQ (e2 :: es3) hsz2
          simp only [jsizeList] at h3
          rw [serElems_pair]
          simp only [List.length_append, List.length_cons]
          omega
    · intro fs h
      cases fs with
      | nil =>
        rw [jsizeFields]
        exact Nat.zero_le _
      | cons f fs2 =>
        cases fs2 with
        | nil =>
          simp only [jsizeFields] at h ⊢
          have hse : jsize f.2 ≤ N := by omega
          have h2 := ihP f.2 hse
          rw [serFields_single]
          simp only [List.length_cons, List.length_append]
          omega
        | cons g fs3 =>
          simp only [jsizeFields] at h ⊢
          have hse : jsize f.2 ≤ N := by omega
          have hsz2 : jsizeFields (g :: fs3) ≤ N := by
            simp only [jsizeFields]
            omega
          have h2 := ihP f.2 hse
          have h3 := ihR (g :: fs3) hsz2
          simp only [jsizeFields] at h3
          rw [serFields_pair]
          simp only [List.length_append, List.length_cons]
          omega

theorem loads_dumps (j : Json) : loads (dumps j) = some j := by
  have hlen : (dumps j).length = (serialize j).length := rfl
  have hfuel : jsize j ≤ (dumps j).length + 1 := by
    have h1 := (ser_length (jsize j)).1 j (le_refl _)
    omega
  have hp := (parse_ser ((dumps j).length + 1)).1 j [] hfuel (by decide)
  rw [List.append_nil] at hp
  rw [loads, show (dumps j).toList = serialize j from rfl, hp]
  rfl

theorem dumps_ne_empty (j : Json) : dumps j ≠ "" := by
  obtain ⟨c, cs, hser, _⟩ := serialize_head j
  intro h
  have h2 : (dumps j).data = ("" : String).data := by rw [h]
  have h3 : ("" : String).data = [] := rfl
  rw [show (dumps j).data = serialize j from rfl, hser, h3] at h2
  exact List.noConfusion h2

theorem decodeState_dumps (j : Json) : decodeState (dumps j) = some j := by
  rw [decodeState, if_neg (dumps_ne_empty j), loads_dumps]

/-- C9: for every session row present in the store and every JSON document
`S` (including the empty object), `update_session_state(session_id, S)`
followed by `get_session(session_id)` yields a row whose stored state
column decodes back to exactly `S`: the state round-trips through
`json.dumps` and `json.loads` unchanged. -/
theorem update_session_state_roundtrip (st : Store) (sid : Nat) (S : Json)
    (h : ∃ s ∈ st.sessions, s.id = sid) :
    ∃ row, get_session (update_session_state st sid S) sid = some row
      ∧ row.id = sid ∧ decodeState row.state = some S := by
  obtain ⟨s0, hmem, hid0⟩ := h
  have hsome : ((st.sessions.find? fun s => s.id == sid)).isSome :=
    List.find?_isSome.mpr ⟨s0, hmem, by simp [hid0]⟩
  obtain ⟨s1, hs1⟩ := Option.isSome_iff_exists.mp hsome
  have hp1 := List.find?_some hs1
  have hid1 : s1.id = sid := by simpa using hp1
  refine ⟨{ s1 with state := dumps S, updated_at := st.clock }, ?_, hid1,
    decodeState_dumps S⟩
  show ((st.sessions.map fun s =>
      if s.id = sid then { s with state := dumps S, updated_at := st.clock }
      else s).find? fun s => s.id == sid) = _
  rw [List.find?_map]
  have hpg : ((fun s : SessionRow => s.id == sid) ∘ fun s =>
      if s.id = sid then { s with state := dumps S, updated_at := st.clock }
      else s) = fun s : SessionRow => s.id == sid := by
    funext s
    simp only [Function.comp]
    split <;> rfl
  rw [hpg, hs1]
  show some (if s1.id = sid
      then { s1 with state := dumps S, updated_at := st.clock } else s1) = _
  rw [if_pos hid1]

theorem update_session_state_roundtrip_spot :
    (∃ s ∈ c3Store.sessions, s.id = 1) ∧
    (∃ row, get_session (update_session_state c3Store 1
        (Json.obj [(['k'], Json.str ['v'])])) 1 = some row
      ∧ row.id = 1
      ∧ decodeState row.state = some (Json.obj [(['k'], Json.str ['v'])])) :=
  ⟨by decide, update_session_state_roundtrip c3Store 1
    (Json.obj [(['k'], Json.str ['v'])]) (by decide)⟩

end Bot
